import Mathlib

/-!
# Verification of `digraph` (GodsBoss/go-graph)

Shallow embedding of `graph.go`: the constructor `New`, the methods
`NewNode` and `Nodes` of `*graph`, and the value type `node`.

The library is imperative Go.  Two features of the language decide what the
code does and are therefore part of the embedding:

* pointers: `New` takes the address of a fresh local `id`; a node carries that
  address and `==` on nodes compares addresses.  Addresses are indices into an
  explicit heap (`Heap`), and allocation extends the heap;
* slices: `g.nodes` is a slice header (array address, length, capacity) over a
  backing array in the heap; `append` writes in place while capacity lasts and
  moves to a fresh array otherwise; `Nodes` returns the header itself.

Go's `int` is taken at its 64-bit width, with two's complement wrap-around.
The length of a slice is an `int` as well, so a graph never stores more than
`maxInt` nodes; the statements that depend on the counter not wrapping carry
that bound on the length as a hypothesis.

Several graphs can live in one heap.  `World` is the state of a client
program (heap, graphs, nodes received), `Call` a call it makes, and the
theorems hold in every state `World.run` reaches.

`Contains`, `Remove`, `Connect`, `Disconnect` and `Edges` have no code in
`graph.go`.  They are modelled from the specification on the state `Graph`;
`System`, `Action` and `System.run` are the client programs of that full
interface, and `Tracked` keeps, next to each graph, the record of its
successful calls.
-/

namespace Digraph

/-! ## Machine integers -/

/-- Largest value of Go's 64-bit `int`, `2^63 - 1`. -/
def maxInt : Nat := 9223372036854775807

/-- Wrap-around of `int` arithmetic: the representative of `x` modulo `2^64`
in the range `-2^63 .. 2^63 - 1`. -/
def wrapInt (x : Int) : Int :=
  (x + 9223372036854775808) % 18446744073709551616 - 9223372036854775808

/-! ## Values -/

/-- The struct `node`: `graphID *int` is the address of the owning graph's
token, `nodeID int` the id inside that graph. -/
structure node where
  graphID : Nat
  nodeID : Int
deriving DecidableEq, Repr

/-- The interface type `Node`.  Its method `internal` is unexported and `node`
is the only type of the package that has it, so an interface value is either
`nil` (`none`) or holds a `node`. -/
abbrev Node := Option node

/-- Go's `==` on two `node` structs: field by field, pointers by address. -/
def node.eq (a b : node) : Bool :=
  decide (a.graphID = b.graphID) && decide (a.nodeID = b.nodeID)

/-- Go's `==` on two `Node` interface values: both nil, or both holding a
`node` and the structs compare equal. -/
def nodeEq : Node → Node → Bool
  | none, none => true
  | some a, some b => a.eq b
  | _, _ => false

/-! ## Heap and slices -/

/-- What lives at a heap address: an `int` variable (the graph token `id`)
or the backing array of a `[]Node`. -/
inductive Obj where
  | intVar (v : Int)
  | nodeArray (elems : List Node)
deriving DecidableEq, Repr

/-- The heap: object `a` lives at index `a`. -/
abbrev Heap := List Obj

/-- Allocation: the new object gets the next free address. -/
def Heap.alloc (h : Heap) (o : Obj) : Nat × Heap :=
  (h.length, h ++ [o])

/-- The elements of the array at address `a` (nothing when `a` holds no array). -/
def Heap.elems (h : Heap) (a : Nat) : List Node :=
  match h[a]? with
  | some (Obj.nodeArray es) => es
  | _ => []

/-- Store `x` in cell `i` of the array at address `a`. -/
def Heap.store (h : Heap) (a i : Nat) (x : Node) : Heap :=
  match h[a]? with
  | some (Obj.nodeArray es) => h.set a (Obj.nodeArray (es.set i x))
  | _ => h

/-- A slice header of type `[]Node`: address of the backing array, length and
capacity.  The nil slice has length and capacity 0. -/
structure Slice where
  array : Nat
  len : Nat
  cap : Nat
deriving DecidableEq, Repr

/-- The nil slice, zero value of `[]Node`. -/
def Slice.nil : Slice := { array := 0, len := 0, cap := 0 }

/-- The elements `s[0], ..., s[len-1]` a reader of the slice sees. -/
def Slice.toList (h : Heap) (s : Slice) : List Node :=
  (h.elems s.array).take s.len

/-- The assignment `s[i] = x`; Go panics when `i` is out of range (`none`). -/
def Slice.assign (h : Heap) (s : Slice) (i : Nat) (x : Node) : Option Heap :=
  if i < s.len then some (h.store s.array i x) else none

/-- The builtin `append(s, x)` for one element.  While `len < cap` the element
is written into the backing array in place; otherwise a new array is
allocated, the elements are copied, and the rest is zeroed.  How much room the
runtime adds is not fixed by the language: `extra c` is the spare capacity it
adds when growing a slice of capacity `c`. -/
def append (extra : Nat → Nat) (h : Heap) (s : Slice) (x : Node) : Slice × Heap :=
  if s.len < s.cap then
    ({ array := s.array, len := s.len + 1, cap := s.cap }, h.store s.array s.len x)
  else
    let r := h.alloc (Obj.nodeArray (s.toList h ++ [x] ++ List.replicate (extra s.cap) none))
    ({ array := r.1, len := s.len + 1, cap := s.len + 1 + extra s.cap }, r.2)

/-- Growth of the Go runtime for small slices: capacity 1, then doubling. -/
def doubling (c : Nat) : Nat := c - 1

/-! ## The graph -/

/-- The struct `graph`: `id *int`, `lastNodeID int`, `nodes []Node`. -/
structure graph where
  id : Nat
  lastNodeID : Int
  nodes : Slice
deriving DecidableEq, Repr

/-- `New()`: `id := 0` is a fresh heap variable, the graph holds its address;
`lastNodeID` and `nodes` have their zero values. -/
def New (h : Heap) : graph × Heap :=
  let r := h.alloc (Obj.intVar 0)
  ({ id := r.1, lastNodeID := 0, nodes := Slice.nil }, r.2)

/-- `(*graph).NewNode`: increment the counter, build the node, append it to
`g.nodes`, return it. -/
def graph.NewNode (extra : Nat → Nat) (g : graph) (h : Heap) : Node × graph × Heap :=
  let last := wrapInt (g.lastNodeID + 1)
  let n : Node := some { graphID := g.id, nodeID := last }
  let r := append extra h g.nodes n
  (n, { id := g.id, lastNodeID := last, nodes := r.1 }, r.2)

/-- `(*graph).Nodes`: returns the slice header `g.nodes`. -/
def graph.Nodes (g : graph) (h : Heap) : Slice × graph × Heap :=
  (g.nodes, g, h)

/-! ## Programs using the library -/

/-- A call a client makes: `New()`, or a method on the `i`-th graph it
created. -/
inductive Call where
  | New
  | NewNode (i : Nat)
  | Nodes (i : Nat)
deriving DecidableEq, Repr

/-- State of a client program: the heap, the graphs created so far (in order
of creation), and the nodes the client got back from `NewNode`, each with the
index of the graph that returned it. -/
structure World where
  heap : Heap
  graphs : List graph
  log : List (Nat × Node)
deriving DecidableEq, Repr

/-- The state before any call. -/
def World.init : World := { heap := [], graphs := [], log := [] }

/-- One call.  A method call on a graph that does not exist does nothing. -/
def World.step (extra : Nat → Nat) (w : World) : Call → World
  | Call.New =>
    let r := New w.heap
    { heap := r.2, graphs := w.graphs ++ [r.1], log := w.log }
  | Call.NewNode i =>
    match w.graphs[i]? with
    | some g =>
      let r := g.NewNode extra w.heap
      { heap := r.2.2, graphs := w.graphs.set i r.2.1, log := w.log ++ [(i, r.1)] }
    | none => w
  | Call.Nodes i =>
    match w.graphs[i]? with
    | some g =>
      let r := g.Nodes w.heap
      { heap := r.2.2, graphs := w.graphs.set i r.2.1, log := w.log }
    | none => w

/-- A sequence of calls, from a given state. -/
def World.exec (extra : Nat → Nat) (w : World) (calls : List Call) : World :=
  calls.foldl (World.step extra) w

/-- A sequence of calls from the initial state. -/
def World.run (extra : Nat → Nat) (calls : List Call) : World :=
  World.exec extra World.init calls

/-- The nodes graph `i` returned so far, oldest first. -/
def World.returned (w : World) (i : Nat) : List Node :=
  (w.log.filter (fun p => p.1 = i)).map Prod.snd

/-- What `Nodes()` of graph `i` shows in the current state. -/
def World.nodesOf (w : World) (i : Nat) : List Node :=
  match w.graphs[i]? with
  | some g => (g.Nodes w.heap).1.toList w.heap
  | none => []

/-- What a caller reads after `s := g.Nodes()`: the elements of the returned
slice, in the state `Nodes` leaves behind. -/
def graph.readNodes (g : graph) (h : Heap) : List Node :=
  (g.Nodes h).1.toList (g.Nodes h).2.2

/-- Node `a` is a `node` whose id is smaller than that of the `node` `b`. -/
def idLess (a b : Node) : Prop :=
  ∃ x y : node, a = some x ∧ b = some y ∧ x.nodeID < y.nodeID

/-- A graph with three nodes; with `doubling` its slice has length 3 and
capacity 4, at address 3. -/
def sharedBefore : World :=
  World.run doubling [Call.New, Call.NewNode 0, Call.NewNode 0, Call.NewNode 0]

/-- The state of `sharedBefore` after one more `NewNode`, which fits the
capacity: the graph still uses the array at address 3. -/
def sharedAfter : World := sharedBefore.exec doubling [Call.NewNode 0]

/-- A graph with two nodes; with `doubling` its slice has length 2 and
capacity 2, at address 2. -/
def movedBefore : World :=
  World.run doubling [Call.New, Call.NewNode 0, Call.NewNode 0]

/-- The state of `movedBefore` after one more `NewNode`, which does not fit:
the graph has moved to a new array at address 3. -/
def movedAfter : World := movedBefore.exec doubling [Call.NewNode 0]

/-! ## Well-formedness -/

/-- A slice header is valid in a heap: `len ≤ cap`, and unless the capacity is
0 the header points to an array of exactly `cap` cells. -/
def Slice.Valid (h : Heap) (s : Slice) : Prop :=
  s.len ≤ s.cap ∧
    (s.cap = 0 ∨ ∃ es, h[s.array]? = some (Obj.nodeArray es) ∧ es.length = s.cap)

/-- The node with id `k + 1` of the graph with token `t`. -/
def nodeAt (t k : Nat) : Node :=
  some { graphID := t, nodeID := wrapInt (k + 1) }

/-- A graph is well formed in a heap: its token is an `int` variable of the
heap, its slice is valid, and the counter is the number of stored nodes. -/
structure graph.WF (h : Heap) (g : graph) : Prop where
  token : ∃ v, h[g.id]? = some (Obj.intVar v)
  valid : g.nodes.Valid h
  counter : g.lastNodeID = wrapInt g.nodes.len

/-- Invariant of client states: every graph is well formed, distinct graphs
have distinct tokens and distinct backing arrays, the log only mentions
graphs that exist, and each graph stores exactly the nodes it returned, which
are the nodes with ids `1, 2, ...` and its own token. -/
structure World.Inv (w : World) : Prop where
  wf : ∀ (i : Nat) (g : graph), w.graphs[i]? = some g → g.WF w.heap
  sep : ∀ (i j : Nat) (gi gj : graph), w.graphs[i]? = some gi → w.graphs[j]? = some gj → i ≠ j →
    gi.id ≠ gj.id ∧ (0 < gi.nodes.cap → 0 < gj.nodes.cap → gi.nodes.array ≠ gj.nodes.array)
  logged : ∀ p ∈ w.log, p.1 < w.graphs.length
  contents : ∀ (i : Nat) (g : graph), w.graphs[i]? = some g → g.nodes.toList w.heap = w.returned i
  ids : ∀ (i : Nat) (g : graph), w.graphs[i]? = some g →
    w.returned i = (List.range g.nodes.len).map (nodeAt g.id)

/-- A slice header `s` held by a caller is safe in state `w`: it is valid, and
every graph that would write in place into the array of `s` is at least as
long as `s`, so that the write lands behind the elements of `s`. -/
def World.Safe (w : World) (s : Slice) : Prop :=
  s.Valid w.heap ∧
    ∀ (j : Nat) (gj : graph), w.graphs[j]? = some gj →
      gj.nodes.len < gj.nodes.cap → gj.nodes.array = s.array → s.len ≤ gj.nodes.len

/-! ## The graph of the specification

`src/graph.go` declares `NewNode` and `Nodes` only.  `Contains`, `Remove`,
`Connect`, `Disconnect`, `Edges`, the type `Edge` and the errors are used by
`graph_test.go` and described by the specification, but their code is not
there.  They are modelled here from the specification, over a state that keeps
the token and the counter of the struct `graph` and holds the live nodes and
the live edges as lists in insertion order. -/

/-- Modelled from the spec: the type `Edge`, which `src/graph.go` does not
declare.  An ordered pair (origin node, destination node); the test writes it
`digraph.Edge{Origin: n1, Destination: n2}` and compares edges with `==`. -/
structure Edge where
  Origin : Node
  Destination : Node
deriving DecidableEq, Repr

/-- Modelled from the spec: the error kinds of section 7, none of which
`src/graph.go` declares. -/
inductive Error where
  | NodeNotFound
  | DuplicateEdge
  | EdgeNotFound
deriving DecidableEq, Repr

/-- Modelled from the spec: the state of a Graph with removal and edges, which
the struct `graph` of `src/graph.go` does not have.  Section 3: an identity
token, a node-id counter, the current set of live nodes, the current set of
live edges.  Token and counter are the fields `id` and `lastNodeID` of the
source struct; nodes and edges are kept in insertion order. -/
structure Graph where
  id : Nat
  lastNodeID : Int
  nodes : List Node
  edges : List Edge
deriving DecidableEq, Repr

/-- The constructor `New` of `src/graph.go` on the extended state: the same
token allocation, counter 0, no nodes, no edges. -/
def Graph.New (h : Heap) : Graph × Heap :=
  ({ id := (Digraph.New h).1.id, lastNodeID := (Digraph.New h).1.lastNodeID,
     nodes := [], edges := [] },
    (Digraph.New h).2)

/-- The method `NewNode` of `src/graph.go` on the extended state: the same
counter increment and the same node, appended to the live nodes. -/
def Graph.NewNode (g : Graph) : Node × Graph :=
  let last := wrapInt (g.lastNodeID + 1)
  let n : Node := some { graphID := g.id, nodeID := last }
  (n, { id := g.id, lastNodeID := last, nodes := g.nodes ++ [n], edges := g.edges })

/-- The extended state that corresponds to a state of the source struct: the
elements of the slice as live nodes, no edges. -/
def graph.abs (g : graph) (h : Heap) : Graph :=
  { id := g.id, lastNodeID := g.lastNodeID, nodes := g.readNodes h, edges := [] }

/-- Modelled from the spec: `Nodes()` of a graph with removal, the ordered
sequence of all currently live nodes. -/
def Graph.Nodes (g : Graph) : List Node := g.nodes

/-- Modelled from the spec: `Edges()`, missing in `src/graph.go`; the ordered
sequence of all currently live edges. -/
def Graph.Edges (g : Graph) : List Edge := g.edges

/-- Modelled from the spec: `Contains(node)`, missing in `src/graph.go`; the
node is in the current set of live nodes. -/
def Graph.Contains (g : Graph) (n : Node) : Bool :=
  decide (n ∈ g.nodes)

/-- Node `n` is the origin or the destination of edge `e`. -/
def Edge.incident (e : Edge) (n : Node) : Bool :=
  decide (e.Origin = n) || decide (e.Destination = n)

/-- Modelled from the spec: `Remove(node)`, missing in `src/graph.go`.  Fails
with `NodeNotFound` when the node is not currently contained; on success
removes the node from the live set and every edge incident to it from the
edge set.  The result is the error (`none` for nil) and the state after. -/
def Graph.Remove (g : Graph) (n : Node) : Option Error × Graph :=
  if g.Contains n then
    (none, { id := g.id, lastNodeID := g.lastNodeID,
             nodes := g.nodes.filter (fun m => decide (m ≠ n)),
             edges := g.edges.filter (fun e => !e.incident n) })
  else
    (some Error.NodeNotFound, g)

/-- Modelled from the spec: `Connect(origin, destination)`, missing in
`src/graph.go`.  Both nodes must be contained, else `NodeNotFound`; the
ordered pair must have no edge yet, else `DuplicateEdge`; on success the edge
is added.  Self-loops are permitted. -/
def Graph.Connect (g : Graph) (origin destination : Node) : Option Error × Graph :=
  if !(g.Contains origin && g.Contains destination) then
    (some Error.NodeNotFound, g)
  else if decide ({ Origin := origin, Destination := destination } ∈ g.edges) then
    (some Error.DuplicateEdge, g)
  else
    (none, { id := g.id, lastNodeID := g.lastNodeID, nodes := g.nodes,
             edges := g.edges ++ [{ Origin := origin, Destination := destination }] })

/-- Modelled from the spec: `Disconnect(origin, destination)`, missing in
`src/graph.go`.  Fails with `NodeNotFound` if either endpoint is not
contained, with `EdgeNotFound` if the ordered pair has no edge; on success
removes exactly that edge. -/
def Graph.Disconnect (g : Graph) (origin destination : Node) : Option Error × Graph :=
  if !(g.Contains origin && g.Contains destination) then
    (some Error.NodeNotFound, g)
  else if decide ({ Origin := origin, Destination := destination } ∈ g.edges) then
    (none, { id := g.id, lastNodeID := g.lastNodeID, nodes := g.nodes,
             edges := g.edges.filter
               (fun e => decide (e ≠ { Origin := origin, Destination := destination })) })
  else
    (some Error.EdgeNotFound, g)

/-! ## Programs using the graph of the specification -/

/-- A successful state-changing call on one graph, as a client can record it. -/
inductive Event where
  | produced (n : Node)
  | removed (n : Node)
  | connected (e : Edge)
  | disconnected (e : Edge)
deriving DecidableEq, Repr

/-- A state-changing method call on one graph. -/
inductive Op where
  | NewNode
  | Remove (n : Node)
  | Connect (origin destination : Node)
  | Disconnect (origin destination : Node)
deriving DecidableEq, Repr

/-- A graph together with the record of the successful calls made on it,
oldest first. -/
structure Tracked where
  graph : Graph
  events : List Event
deriving DecidableEq, Repr

/-- One method call on a tracked graph.  A call that returns an error leaves
the record as it is. -/
def Tracked.apply (t : Tracked) : Op → Tracked
  | Op.NewNode =>
    { graph := t.graph.NewNode.2, events := t.events ++ [Event.produced t.graph.NewNode.1] }
  | Op.Remove n =>
    match (t.graph.Remove n).1 with
    | none => { graph := (t.graph.Remove n).2, events := t.events ++ [Event.removed n] }
    | some _ => { graph := (t.graph.Remove n).2, events := t.events }
  | Op.Connect a b =>
    match (t.graph.Connect a b).1 with
    | none =>
      { graph := (t.graph.Connect a b).2,
        events := t.events ++ [Event.connected { Origin := a, Destination := b }] }
    | some _ => { graph := (t.graph.Connect a b).2, events := t.events }
  | Op.Disconnect a b =>
    match (t.graph.Disconnect a b).1 with
    | none =>
      { graph := (t.graph.Disconnect a b).2,
        events := t.events ++ [Event.disconnected { Origin := a, Destination := b }] }
    | some _ => { graph := (t.graph.Disconnect a b).2, events := t.events }

/-- A call of a client of the full interface: `New()`, or a method on the
`i`-th graph it created. -/
inductive Action where
  | New
  | call (i : Nat) (op : Op)
deriving DecidableEq, Repr

/-- State of a client of the full interface: the heap (it holds the tokens)
and the graphs created so far with their records. -/
structure System where
  heap : Heap
  graphs : List Tracked
deriving DecidableEq, Repr

/-- The state before any call. -/
def System.init : System := { heap := [], graphs := [] }

/-- One call.  A method call on a graph that does not exist does nothing. -/
def System.step (s : System) : Action → System
  | Action.New =>
    { heap := (Graph.New s.heap).2,
      graphs := s.graphs ++ [{ graph := (Graph.New s.heap).1, events := [] }] }
  | Action.call i op =>
    match s.graphs[i]? with
    | some t => { heap := s.heap, graphs := s.graphs.set i (t.apply op) }
    | none => s

/-- A sequence of calls, from a given state. -/
def System.exec (s : System) (actions : List Action) : System :=
  actions.foldl System.step s

/-- A sequence of calls from the initial state. -/
def System.run (actions : List Action) : System :=
  System.exec System.init actions

/-- Node `n` was returned by `NewNode` and no successful `Remove(n)` came
after that: the record has an event `produced n` with no `removed n` behind
it. -/
def producedNotRemoved : List Event → Node → Bool
  | [], _ => false
  | ev :: rest, n =>
    (decide (ev = Event.produced n) && !decide (Event.removed n ∈ rest)) ||
      producedNotRemoved rest n

/-- Node `n` was returned by `NewNode` of the graph with this record. -/
def producedBy (events : List Event) (n : Node) : Prop :=
  Event.produced n ∈ events

/-- The event takes edge `e` out of the graph: a successful `Disconnect` of
the pair, or the successful `Remove` of one of its endpoints. -/
def Event.drops (ev : Event) (e : Edge) : Bool :=
  match ev with
  | Event.disconnected e2 => decide (e2 = e)
  | Event.removed n => e.incident n
  | _ => false

/-- The edges connected and not dropped since, in the order of their
connection: each event `connected e` of the record with no later event that
drops `e`. -/
def survivors : List Event → List Edge
  | [] => []
  | Event.connected e :: rest =>
    if rest.any (fun ev => ev.drops e) then survivors rest else e :: survivors rest
  | _ :: rest => survivors rest

/-- The edges connected and not disconnected since, in the order of their
connection, as C18 words it: each event `connected e` of the record with no
later event `disconnected e`. -/
def connectedNotDisconnected : List Event → List Edge
  | [] => []
  | Event.connected e :: rest =>
    if decide (Event.disconnected e ∈ rest) then connectedNotDisconnected rest
    else e :: connectedNotDisconnected rest
  | _ :: rest => connectedNotDisconnected rest

/-- What one more event demands for `removalsUnconnected`: a removal must take
a node that is no endpoint of a pair connected and not disconnected so far. -/
def Event.removesUnconnected (before : List Event) (ev : Event) : Bool :=
  match ev with
  | Event.removed n => (connectedNotDisconnected before).all (fun e => !e.incident n)
  | _ => true

/-- The events `events` behind the events `before` satisfy
`Event.removesUnconnected`, each at its place. -/
def removalsUnconnectedFrom (before : List Event) : List Event → Bool
  | [] => true
  | ev :: rest =>
    ev.removesUnconnected before && removalsUnconnectedFrom (before ++ [ev]) rest

/-- Every successful `Remove` of the record took a node that was at that time
no endpoint of a pair connected and not disconnected. -/
def removalsUnconnected (events : List Event) : Bool :=
  removalsUnconnectedFrom [] events

/-- Consistency of a graph state: every edge has both endpoints among the live
nodes, and no ordered pair occurs twice among the edges. -/
def Graph.Consistent (g : Graph) : Prop :=
  (∀ e ∈ g.edges, g.Contains e.Origin = true ∧ g.Contains e.Destination = true) ∧
    g.edges.Nodup

/-- What the record says about a tracked graph: live nodes and produced nodes
carry the token of the graph, the live nodes are the nodes produced and not
removed since, and the edges are the survivors of the record. -/
structure Tracked.Good (t : Tracked) : Prop where
  own : ∀ n ∈ t.graph.nodes, ∃ x : node, n = some x ∧ x.graphID = t.graph.id
  prod : ∀ n : Node, Event.produced n ∈ t.events →
    ∃ x : node, n = some x ∧ x.graphID = t.graph.id
  live : ∀ n : Node, t.graph.Contains n = producedNotRemoved t.events n
  edges : t.graph.edges = survivors t.events
  consistent : t.graph.Consistent

/-- Invariant of client states of the full interface: every tracked graph is
good, every token is an address of the heap, and different graphs have
different tokens. -/
structure System.Inv (s : System) : Prop where
  good : ∀ (i : Nat) (t : Tracked), s.graphs[i]? = some t → t.Good
  token : ∀ (i : Nat) (t : Tracked), s.graphs[i]? = some t → t.graph.id < s.heap.length
  sep : ∀ (i j : Nat) (ti tj : Tracked), s.graphs[i]? = some ti → s.graphs[j]? = some tj →
    i ≠ j → ti.graph.id ≠ tj.graph.id

/-- The `i`-th graph of a state with its record (an empty graph when there is
no `i`-th graph). -/
def System.tracked (s : System) (i : Nat) : Tracked :=
  s.graphs[i]?.getD { graph := { id := 0, lastNodeID := 0, nodes := [], edges := [] },
                      events := [] }

/-- The setup of `TestGraphsCheckWetherTheyContainNodes`: `g1`, `g2` created;
`n1a`, `n1b` from `g1`, `n2` from `g2`; `g1.Remove(n1b)`.  The tokens are the
addresses 0 and 1, so `n1a`, `n1b`, `n2` are the nodes (0, 1), (0, 2), (1, 1). -/
def testContainsSetup : List Action :=
  [Action.New, Action.New, Action.call 0 Op.NewNode, Action.call 0 Op.NewNode,
    Action.call 1 Op.NewNode, Action.call 0 (Op.Remove (some ⟨0, 2⟩))]

/-- The setup of `TestRemoveNodes`: `n1a`, `n1b` from `g1`, `g1.Remove(n1b)`,
`n2` from `g2`, `ne1`, `ne2` from `g1`, `g1.Connect(ne1, ne2)`.  The nodes are
`n1a` = (0, 1), `n1b` = (0, 2), `n2` = (1, 1), `ne1` = (0, 3), `ne2` = (0, 4). -/
def testRemoveNodesSetup : List Action :=
  [Action.New, Action.New, Action.call 0 Op.NewNode, Action.call 0 Op.NewNode,
    Action.call 0 (Op.Remove (some ⟨0, 2⟩)), Action.call 1 Op.NewNode,
    Action.call 0 Op.NewNode, Action.call 0 Op.NewNode,
    Action.call 0 (Op.Connect (some ⟨0, 3⟩) (some ⟨0, 4⟩))]

/-- The setup of the case `origin_not_contained` of `TestConnect` and of
`TestDisconnectEdgeErrors`: `n := g.NewNode()`, `g.Remove(n)`, then a second
node.  `n` = (0, 1), the second node is (0, 2). -/
def testOriginNotContainedSetup : List Action :=
  [Action.New, Action.call 0 Op.NewNode, Action.call 0 (Op.Remove (some ⟨0, 1⟩)),
    Action.call 0 Op.NewNode]

/-- The setup of the case `connection_removed` of `TestDisconnectEdgeErrors`:
two nodes, `Connect`, `Disconnect`. -/
def testConnectionRemovedSetup : List Action :=
  [Action.New, Action.call 0 Op.NewNode, Action.call 0 Op.NewNode,
    Action.call 0 (Op.Connect (some ⟨0, 1⟩) (some ⟨0, 2⟩)),
    Action.call 0 (Op.Disconnect (some ⟨0, 1⟩) (some ⟨0, 2⟩))]

/-- Two nodes, `Connect(n1, n2)`, then `Remove(n1)`. -/
def connectThenRemove : List Action :=
  [Action.New, Action.call 0 Op.NewNode, Action.call 0 Op.NewNode,
    Action.call 0 (Op.Connect (some ⟨0, 1⟩) (some ⟨0, 2⟩)),
    Action.call 0 (Op.Remove (some ⟨0, 1⟩))]

/-- The first graph after `testContainsSetup`. -/
def testContainsState : Tracked := (System.run testContainsSetup).tracked 0

/-- The graph `g1` after `testRemoveNodesSetup`. -/
def testRemoveNodesState : Tracked := (System.run testRemoveNodesSetup).tracked 0

/-- The graph `g1` of `TestRemoveNodes` after the further call `g1.Remove(ne1)`. -/
def testRemovedEndpointState : Tracked :=
  (System.run (testRemoveNodesSetup ++ [Action.call 0 (Op.Remove (some ⟨0, 3⟩))])).tracked 0

/-- The graph after `testOriginNotContainedSetup`. -/
def testOriginNotContainedState : Tracked := (System.run testOriginNotContainedSetup).tracked 0

/-- The graph of `testConnectionRemovedSetup` before its last call, the
`Disconnect`: two nodes and the edge between them. -/
def testConnectedState : Tracked :=
  (System.run testConnectionRemovedSetup.dropLast).tracked 0

/-- The graph after `testConnectionRemovedSetup`. -/
def testConnectionRemovedState : Tracked := (System.run testConnectionRemovedSetup).tracked 0

/-- The graph after `connectThenRemove`. -/
def connectThenRemoveState : Tracked := (System.run connectThenRemove).tracked 0

/-- The invariant of the struct `graph` in a heap: the token is a variable of
the heap and the slice is valid there; the counter is the number of stored
nodes; the `i`-th stored node carries the token of the graph and the id
`i + 1`. -/
structure graph.Invariant (h : Heap) (g : graph) : Prop where
  token : ∃ v, h[g.id]? = some (Obj.intVar v)
  valid : g.nodes.Valid h
  count : g.lastNodeID = ((g.readNodes h).length : Int)
  stored : ∀ i : Nat, i < (g.readNodes h).length →
    (g.readNodes h)[i]? = some (some { graphID := g.id, nodeID := (i : Int) + 1 })

/-! ## `Remove` as the test requires it

The specification and `graph_test.go` differ on one call: `Remove` of a
contained node that is still an endpoint of an edge.  The prose of the
specification lets it succeed and drop the edges (`Graph.Remove`);
`TestRemoveNodes` requires an error for `ne1` and `ne2` after
`g1.Connect(ne1, ne2)`.  `Graph.RemoveTested` is the `Remove` of the
specification with that case decided as the test decides it; on every other
call the two agree. -/

/-- Modelled from the spec: the errors of `Remove`, which `src/graph.go` does
not declare.  `NodeNotFound` is the kind of section 7; `NodeConnected` is the
error `TestRemoveNodes` requires for a node that still has an edge, for which
section 7 has no name (it counts four kinds and lists three). -/
inductive RemoveError where
  | NodeNotFound
  | NodeConnected
deriving DecidableEq, Repr

/-- Node `n` is the origin or the destination of an edge of the graph. -/
def Graph.connected (g : Graph) (n : Node) : Bool :=
  g.edges.any (fun e => e.incident n)

/-- Modelled from the spec: `Remove(node)`, missing in `src/graph.go`, with the
case of a connected node as `TestRemoveNodes` requires it.  Fails with
`NodeNotFound` when the node is not currently contained (section 4.1); fails,
leaving the graph as it is, when the node is still an endpoint of an edge
(test cases `ne1`, `ne2`); on success removes the node from the live set and
every edge incident to it from the edge set (section 4.1). -/
def Graph.RemoveTested (g : Graph) (n : Node) : Option RemoveError × Graph :=
  if !g.Contains n then
    (some RemoveError.NodeNotFound, g)
  else if g.connected n then
    (some RemoveError.NodeConnected, g)
  else
    (none, { id := g.id, lastNodeID := g.lastNodeID,
             nodes := g.nodes.filter (fun m => decide (m ≠ n)),
             edges := g.edges.filter (fun e => !e.incident n) })

/-- One method call on a tracked graph, with `Remove` as the test requires it;
the other calls are those of `Tracked.apply`. -/
def Tracked.applyTested (t : Tracked) : Op → Tracked
  | Op.Remove n =>
    match (t.graph.RemoveTested n).1 with
    | none => { graph := (t.graph.RemoveTested n).2, events := t.events ++ [Event.removed n] }
    | some _ => { graph := (t.graph.RemoveTested n).2, events := t.events }
  | Op.NewNode => t.apply Op.NewNode
  | Op.Connect a b => t.apply (Op.Connect a b)
  | Op.Disconnect a b => t.apply (Op.Disconnect a b)

/-- One call of a client, with `Remove` as the test requires it. -/
def System.stepTested (s : System) : Action → System
  | Action.New =>
    { heap := (Graph.New s.heap).2,
      graphs := s.graphs ++ [{ graph := (Graph.New s.heap).1, events := [] }] }
  | Action.call i op =>
    match s.graphs[i]? with
    | some t => { heap := s.heap, graphs := s.graphs.set i (t.applyTested op) }
    | none => s

/-- A sequence of calls from a given state, with `Remove` as the test requires
it. -/
def System.execTested (s : System) (actions : List Action) : System :=
  actions.foldl System.stepTested s

/-- A sequence of calls from the initial state, with `Remove` as the test
requires it. -/
def System.runTested (actions : List Action) : System :=
  System.execTested System.init actions

/-- The graph `g1` after `testRemoveNodesSetup`, with `Remove` as the test
requires it. -/
def testRemoveNodesTested : Tracked := (System.runTested testRemoveNodesSetup).tracked 0

/-- The graph after `connectThenRemove`, with `Remove` as the test requires
it: the removal is refused and the edge stays. -/
def connectThenRemoveTested : Tracked := (System.runTested connectThenRemove).tracked 0

theorem wrapInt_succ_wrapInt (x : Int) : wrapInt (wrapInt x + 1) = wrapInt (x + 1) := by
  unfold wrapInt
  omega

theorem wrapInt_of_le_maxInt (k : Nat) (hk : k ≤ maxInt) : wrapInt k = k := by
  unfold wrapInt
  unfold maxInt at hk
  omega

theorem wrapInt_zero : wrapInt 0 = 0 := by
  decide

/-! ## Lemmas on the heap -/

theorem Heap.getElem?_alloc_of_lt (h : Heap) (o : Obj) (a : Nat) (ha : a < h.length) :
    (h.alloc o).2[a]? = h[a]? := by
  simp [Heap.alloc, List.getElem?_append_left ha]

theorem Heap.getElem?_alloc_self (h : Heap) (o : Obj) :
    (h.alloc o).2[(h.alloc o).1]? = some o := by
  simp [Heap.alloc]

theorem Heap.lt_length_of_getElem? {h : Heap} {a : Nat} {o : Obj} (ha : h[a]? = some o) :
    a < h.length := by
  obtain ⟨hlt, _⟩ := List.getElem?_eq_some.mp ha
  exact hlt

theorem Heap.elems_alloc_of_lt (h : Heap) (o : Obj) (a : Nat) (ha : a < h.length) :
    Heap.elems (h.alloc o).2 a = Heap.elems h a := by
  unfold Heap.elems
  rw [Heap.getElem?_alloc_of_lt h o a ha]

theorem Heap.elems_of_getElem? {h : Heap} {a : Nat} {es : List Node}
    (ha : h[a]? = some (Obj.nodeArray es)) : Heap.elems h a = es := by
  unfold Heap.elems
  rw [ha]

theorem Heap.store_of_getElem? {h : Heap} {a : Nat} {es : List Node}
    (ha : h[a]? = some (Obj.nodeArray es)) (i : Nat) (x : Node) :
    Heap.store h a i x = h.set a (Obj.nodeArray (es.set i x)) := by
  unfold Heap.store
  rw [ha]

theorem Heap.length_store (h : Heap) (a i : Nat) (x : Node) :
    (Heap.store h a i x).length = h.length := by
  unfold Heap.store
  split <;> simp

theorem Heap.getElem?_store_ne (h : Heap) (a i : Nat) (x : Node) (b : Nat) (hab : a ≠ b) :
    (Heap.store h a i x)[b]? = h[b]? := by
  unfold Heap.store
  split
  · simp [List.getElem?_set_ne hab]
  · rfl

theorem Heap.getElem?_store_self {h : Heap} {a : Nat} {es : List Node}
    (ha : h[a]? = some (Obj.nodeArray es)) (i : Nat) (x : Node) :
    (Heap.store h a i x)[a]? = some (Obj.nodeArray (es.set i x)) := by
  rw [Heap.store_of_getElem? ha]
  exact List.getElem?_set_self (Heap.lt_length_of_getElem? ha)

theorem Heap.getElem?_store_intVar (h : Heap) (a i : Nat) (x : Node) (b : Nat) (v : Int)
    (hb : h[b]? = some (Obj.intVar v)) : (Heap.store h a i x)[b]? = some (Obj.intVar v) := by
  by_cases hab : a = b
  · subst hab
    unfold Heap.store
    rw [hb]
    exact hb
  · rw [Heap.getElem?_store_ne h a i x b hab]
    exact hb

/-! ## Lemmas on slices and `append` -/

theorem take_set_of_le {α : Type} (l : List α) (m n : Nat) (a : α) (hmn : m ≤ n) :
    (l.set n a).take m = l.take m := by
  induction l generalizing m n with
  | nil => simp
  | cons y ys ih =>
    cases n with
    | zero =>
      have : m = 0 := by omega
      subst this
      simp
    | succ n =>
      cases m with
      | zero => simp
      | succ m => simp [ih m n (by omega)]

theorem Slice.toList_of_len_zero (h : Heap) (s : Slice) (hs : s.len = 0) :
    s.toList h = [] := by
  simp [Slice.toList, hs]

theorem Slice.Valid.len_zero_of_cap_zero {h : Heap} {s : Slice} (hv : s.Valid h)
    (hc : s.cap = 0) : s.len = 0 := by
  have := hv.1
  omega

theorem Slice.Valid.array_lt {h : Heap} {s : Slice} (hv : s.Valid h) (hc : 0 < s.cap) :
    s.array < h.length := by
  rcases hv.2 with h0 | ⟨es, hes, _⟩
  · omega
  · exact Heap.lt_length_of_getElem? hes

theorem Slice.Valid.length_toList {h : Heap} {s : Slice} (hv : s.Valid h) :
    (s.toList h).length = s.len := by
  rcases hv.2 with h0 | ⟨es, hes, hlen⟩
  · rw [Slice.toList_of_len_zero h s (hv.len_zero_of_cap_zero h0)]
    simp [hv.len_zero_of_cap_zero h0]
  · have := hv.1
    simp [Slice.toList, Heap.elems_of_getElem? hes]
    omega

theorem Slice.nil_valid (h : Heap) : Slice.nil.Valid h := by
  exact ⟨Nat.le_refl _, Or.inl rfl⟩

theorem append_len (extra : Nat → Nat) (h : Heap) (s : Slice) (x : Node) :
    (append extra h s x).1.len = s.len + 1 := by
  unfold append
  split <;> rfl

theorem append_heap_length_le (extra : Nat → Nat) (h : Heap) (s : Slice) (x : Node) :
    h.length ≤ (append extra h s x).2.length := by
  unfold append
  split
  · simp [Heap.length_store]
  · simp [Heap.alloc]

theorem append_getElem?_intVar (extra : Nat → Nat) (h : Heap) (s : Slice) (x : Node)
    (b : Nat) (v : Int) (hb : h[b]? = some (Obj.intVar v)) :
    (append extra h s x).2[b]? = some (Obj.intVar v) := by
  unfold append
  split
  · exact Heap.getElem?_store_intVar h _ _ x b v hb
  · show (h.alloc _).2[b]? = _
    rw [Heap.getElem?_alloc_of_lt h _ b (Heap.lt_length_of_getElem? hb)]
    exact hb

/-- Validity of any slice header survives an `append`, aliased or not. -/
theorem append_valid_frame (extra : Nat → Nat) (h : Heap) (s : Slice) (x : Node)
    (t : Slice) (ht : t.Valid h) : t.Valid (append extra h s x).2 := by
  refine ⟨ht.1, ?_⟩
  rcases ht.2 with h0 | ⟨es, hes, hlen⟩
  · exact Or.inl h0
  · right
    unfold append
    split
    · by_cases hst : s.array = t.array
      · refine ⟨es.set s.len x, ?_, by simpa using hlen⟩
        rw [hst]
        exact Heap.getElem?_store_self hes _ _
      · exact ⟨es, by rw [Heap.getElem?_store_ne h _ _ x _ hst]; exact hes, hlen⟩
    · refine ⟨es, ?_, hlen⟩
      show (h.alloc _).2[t.array]? = _
      rw [Heap.getElem?_alloc_of_lt h _ _ (Heap.lt_length_of_getElem? hes)]
      exact hes

/-- The slice `append` returns is valid. -/
theorem append_valid (extra : Nat → Nat) (h : Heap) (s : Slice) (x : Node)
    (hs : s.Valid h) : (append extra h s x).1.Valid (append extra h s x).2 := by
  unfold append
  split
  · rename_i hlt
    refine ⟨hlt, ?_⟩
    rcases hs.2 with h0 | ⟨es, hes, hlen⟩
    · omega
    · exact Or.inr ⟨es.set s.len x, Heap.getElem?_store_self hes _ _, by simpa using hlen⟩
  · refine ⟨by simp, Or.inr ⟨_, Heap.getElem?_alloc_self h _, ?_⟩⟩
    simp [hs.length_toList]
    omega

/-- The slice `append` returns holds the old elements followed by the new one. -/
theorem append_toList (extra : Nat → Nat) (h : Heap) (s : Slice) (x : Node)
    (hs : s.Valid h) :
    (append extra h s x).1.toList (append extra h s x).2 = s.toList h ++ [x] := by
  unfold append
  split
  · rename_i hlt
    rcases hs.2 with h0 | ⟨es, hes, hlen⟩
    · omega
    · have hl : s.len < es.length := by omega
      simp only [Slice.toList, Heap.elems_of_getElem? (Heap.getElem?_store_self hes s.len x),
        Heap.elems_of_getElem? hes]
      rw [List.take_succ, List.getElem?_set_self hl, take_set_of_le es _ _ x (Nat.le_refl _)]
      rfl
  · have hlen := hs.length_toList
    have hnew : Heap.elems (h.alloc (Obj.nodeArray
        (s.toList h ++ [x] ++ List.replicate (extra s.cap) none))).2 h.length =
        s.toList h ++ [x] ++ List.replicate (extra s.cap) none :=
      Heap.elems_of_getElem? (Heap.getElem?_alloc_self h _)
    show List.take (s.len + 1) (Heap.elems _ h.length) = _
    rw [hnew]
    exact List.take_left' (by simp [hlen])

/-- A slice header that shares the array with `s` but is no longer than `s`, or
does not share it, reads the same elements after `append(s, x)`. -/
theorem append_toList_frame (extra : Nat → Nat) (h : Heap) (s : Slice) (x : Node)
    (t : Slice) (ht : t.Valid h) (hst : s.len < s.cap → t.array = s.array → t.len ≤ s.len) :
    t.toList (append extra h s x).2 = t.toList h := by
  rcases ht.2 with h0 | ⟨es, hes, hlen⟩
  · rw [Slice.toList_of_len_zero _ t (ht.len_zero_of_cap_zero h0),
      Slice.toList_of_len_zero _ t (ht.len_zero_of_cap_zero h0)]
  · unfold append
    split
    · by_cases hts : s.array = t.array
      · rename_i hlt
        have hle := hst hlt hts.symm
        simp only [Slice.toList]
        rw [hts, Heap.elems_of_getElem? (Heap.getElem?_store_self hes s.len x),
          Heap.elems_of_getElem? hes, take_set_of_le es _ _ x hle]
      · simp only [Slice.toList, Heap.elems]
        rw [Heap.getElem?_store_ne h _ _ x _ hts]
    · simp only [Slice.toList]
      rw [Heap.elems_alloc_of_lt h _ _ (Heap.lt_length_of_getElem? hes)]

/-! ## Lemmas on lists of graphs and on the log -/

theorem getElem?_concat_cases {α : Type} (l : List α) (x g : α) (i : Nat)
    (h : (l ++ [x])[i]? = some g) : l[i]? = some g ∨ (i = l.length ∧ g = x) := by
  rcases Nat.lt_trichotomy i l.length with hlt | heq | hgt
  · rw [List.getElem?_append_left hlt] at h
    exact Or.inl h
  · subst heq
    rw [List.getElem?_concat_length] at h
    exact Or.inr ⟨rfl, (Option.some.inj h).symm⟩
  · rw [List.getElem?_eq_none (by simp; omega)] at h
    cases h

theorem getElem?_set_cases {α : Type} (l : List α) (i j : Nat) (x g : α)
    (h : (l.set i x)[j]? = some g) : (j = i ∧ g = x) ∨ (j ≠ i ∧ l[j]? = some g) := by
  by_cases hji : j = i
  · subst hji
    have hlt : j < l.length := by
      rcases List.getElem?_eq_some.mp h with ⟨hl, _⟩
      simpa using hl
    rw [List.getElem?_set_self hlt] at h
    exact Or.inl ⟨rfl, (Option.some.inj h).symm⟩
  · rw [List.getElem?_set_ne (fun hij => hji hij.symm)] at h
    exact Or.inr ⟨hji, h⟩

theorem set_of_getElem? {α : Type} (l : List α) (i : Nat) (x : α) (h : l[i]? = some x) :
    l.set i x = l := by
  induction l generalizing i with
  | nil => simp
  | cons y ys ih =>
    cases i with
    | zero =>
      simp at h
      simp [h]
    | succ i =>
      simp at h
      simp [ih i h]

theorem World.returned_of_not_logged (w : World) (i : Nat)
    (hlog : ∀ p ∈ w.log, p.1 < w.graphs.length) (hi : w.graphs.length ≤ i) :
    w.returned i = [] := by
  unfold World.returned
  rw [List.map_eq_nil_iff, List.filter_eq_nil_iff]
  intro p hp
  have := hlog p hp
  simp
  omega

theorem returned_log_self (hp : Heap) (gs : List graph) (log : List (Nat × Node))
    (i : Nat) (n : Node) :
    World.returned { heap := hp, graphs := gs, log := log ++ [(i, n)] } i =
      World.returned { heap := hp, graphs := gs, log := log } i ++ [n] := by
  simp [World.returned, List.filter_append]

theorem returned_log_ne (hp : Heap) (gs : List graph) (log : List (Nat × Node))
    (i j : Nat) (n : Node) (hij : i ≠ j) :
    World.returned { heap := hp, graphs := gs, log := log ++ [(i, n)] } j =
      World.returned { heap := hp, graphs := gs, log := log } j := by
  simp [World.returned, List.filter_append, hij]

/-! ## Lemmas on `New` and `NewNode` -/

theorem Slice.Valid.valid_alloc {h : Heap} {s : Slice} (hs : s.Valid h) (o : Obj) :
    s.Valid (h.alloc o).2 := by
  refine ⟨hs.1, ?_⟩
  rcases hs.2 with h0 | ⟨es, hes, hlen⟩
  · exact Or.inl h0
  · refine Or.inr ⟨es, ?_, hlen⟩
    rw [Heap.getElem?_alloc_of_lt h o _ (Heap.lt_length_of_getElem? hes)]
    exact hes

theorem graph.WF.wf_alloc {h : Heap} {g : graph} (hg : g.WF h) (o : Obj) :
    g.WF (h.alloc o).2 := by
  obtain ⟨v, hv⟩ := hg.token
  refine ⟨⟨v, ?_⟩, hg.valid.valid_alloc o, hg.counter⟩
  rw [Heap.getElem?_alloc_of_lt h o _ (Heap.lt_length_of_getElem? hv)]
  exact hv

theorem Slice.toList_alloc {h : Heap} {s : Slice} (hs : s.Valid h) (o : Obj) :
    s.toList (h.alloc o).2 = s.toList h := by
  rcases hs.2 with h0 | ⟨es, hes, _⟩
  · rw [Slice.toList_of_len_zero _ s (hs.len_zero_of_cap_zero h0),
      Slice.toList_of_len_zero _ s (hs.len_zero_of_cap_zero h0)]
  · simp only [Slice.toList]
    rw [Heap.elems_alloc_of_lt h o _ (Heap.lt_length_of_getElem? hes)]

theorem New_WF (h : Heap) : (New h).1.WF (New h).2 := by
  refine ⟨⟨0, ?_⟩, Slice.nil_valid _, ?_⟩
  · exact Heap.getElem?_alloc_self h (Obj.intVar 0)
  · exact wrapInt_zero.symm

theorem NewNode_WF (extra : Nat → Nat) (g : graph) (h : Heap) (hg : g.WF h) :
    (g.NewNode extra h).2.1.WF (g.NewNode extra h).2.2 := by
  obtain ⟨v, hv⟩ := hg.token
  refine ⟨⟨v, ?_⟩, ?_, ?_⟩
  · exact append_getElem?_intVar extra h g.nodes _ g.id v hv
  · exact append_valid extra h g.nodes _ hg.valid
  · show wrapInt (g.lastNodeID + 1) = wrapInt ((append extra h g.nodes _).1.len : Nat)
    rw [append_len, hg.counter, wrapInt_succ_wrapInt]
    simp

theorem NewNode_WF_frame (extra : Nat → Nat) (g : graph) (h : Heap) (g2 : graph)
    (hg2 : g2.WF h) : g2.WF (g.NewNode extra h).2.2 := by
  obtain ⟨v, hv⟩ := hg2.token
  exact ⟨⟨v, append_getElem?_intVar extra h g.nodes _ g2.id v hv⟩,
    append_valid_frame extra h g.nodes _ g2.nodes hg2.valid, hg2.counter⟩

theorem NewNode_toList (extra : Nat → Nat) (g : graph) (h : Heap) (hg : g.WF h) :
    (g.NewNode extra h).2.1.nodes.toList (g.NewNode extra h).2.2 =
      g.nodes.toList h ++ [(g.NewNode extra h).1] :=
  append_toList extra h g.nodes _ hg.valid

theorem NewNode_array (extra : Nat → Nat) (g : graph) (h : Heap) :
    (g.nodes.len < g.nodes.cap ∧ (g.NewNode extra h).2.1.nodes.array = g.nodes.array) ∨
      (g.NewNode extra h).2.1.nodes.array = h.length := by
  show (_ ∧ (append extra h g.nodes _).1.array = _) ∨ (append extra h g.nodes _).1.array = _
  unfold append
  split
  · rename_i hlt
    exact Or.inl ⟨hlt, rfl⟩
  · exact Or.inr rfl

theorem NewNode_eq_nodeAt (extra : Nat → Nat) (g : graph) (h : Heap) (hg : g.WF h) :
    (g.NewNode extra h).1 = nodeAt g.id g.nodes.len := by
  show some { graphID := g.id, nodeID := wrapInt (g.lastNodeID + 1) } = nodeAt g.id g.nodes.len
  rw [hg.counter, wrapInt_succ_wrapInt]
  rfl

/-! ## The invariant holds in every reachable state -/

theorem World.init_inv : World.init.Inv := by
  refine ⟨?_, ?_, ?_, ?_, ?_⟩
  · intro i g hg
    simp [World.init] at hg
  · intro i j gi gj hgi
    simp [World.init] at hgi
  · intro p hp
    simp [World.init] at hp
  · intro i g hg
    simp [World.init] at hg
  · intro i g hg
    simp [World.init] at hg

theorem World.Inv.step_New (extra : Nat → Nat) {w : World} (hw : w.Inv) :
    (w.step extra Call.New).Inv := by
  have hnewid : (New w.heap).1.id = w.heap.length := rfl
  have hnewnodes : (New w.heap).1.nodes = Slice.nil := rfl
  have hlt : ∀ (i : Nat) (g : graph), w.graphs[i]? = some g → g.id < w.heap.length := by
    intro i g hg
    obtain ⟨v, hv⟩ := (hw.wf i g hg).token
    exact Heap.lt_length_of_getElem? hv
  refine ⟨?_, ?_, ?_, ?_, ?_⟩
  · intro i g hg
    rcases getElem?_concat_cases _ _ _ _ hg with hold | ⟨_, hnew⟩
    · exact (hw.wf i g hold).wf_alloc _
    · rw [hnew]
      exact New_WF w.heap
  · intro i j gi gj hgi hgj hij
    rcases getElem?_concat_cases _ _ _ _ hgi with hi | ⟨hi, hgi2⟩
    · rcases getElem?_concat_cases _ _ _ _ hgj with hj | ⟨hj, hgj2⟩
      · exact hw.sep i j gi gj hi hj hij
      · have := hlt i gi hi
        refine ⟨by rw [hgj2, hnewid]; omega, ?_⟩
        intro _ hc
        rw [hgj2, hnewnodes] at hc
        exact absurd hc (by decide)
    · have hc0 : gi.nodes.cap = 0 := by rw [hgi2, hnewnodes]; rfl
      rcases getElem?_concat_cases _ _ _ _ hgj with hj | ⟨hj, hgj2⟩
      · have := hlt j gj hj
        refine ⟨by rw [hgi2, hnewid]; omega, ?_⟩
        intro hc
        omega
      · omega
  · intro p hp
    have := hw.logged p hp
    show p.1 < (w.graphs ++ [(New w.heap).1]).length
    simp
    omega
  · intro i g hg
    show g.nodes.toList (New w.heap).2 = w.returned i
    rcases getElem?_concat_cases _ _ _ _ hg with hold | ⟨hi, hnew⟩
    · rw [← hw.contents i g hold]
      exact Slice.toList_alloc (hw.wf i g hold).valid _
    · rw [World.returned_of_not_logged w i hw.logged (by omega), hnew]
      rfl
  · intro i g hg
    show w.returned i = _
    rcases getElem?_concat_cases _ _ _ _ hg with hold | ⟨hi, hnew⟩
    · exact hw.ids i g hold
    · rw [World.returned_of_not_logged w i hw.logged (by omega), hnew]
      rfl

theorem World.Inv.step_NewNode (extra : Nat → Nat) {w : World} (hw : w.Inv) (i : Nat)
    (g : graph) (hg : w.graphs[i]? = some g) :
    World.Inv { heap := (g.NewNode extra w.heap).2.2,
                graphs := w.graphs.set i (g.NewNode extra w.heap).2.1,
                log := w.log ++ [(i, (g.NewNode extra w.heap).1)] } := by
  have hgwf := hw.wf i g hg
  have hilt : i < w.graphs.length := (List.getElem?_eq_some.mp hg).1
  refine ⟨?_, ?_, ?_, ?_, ?_⟩
  · intro j gj hgj
    rcases getElem?_set_cases _ _ _ _ _ hgj with ⟨_, hnew⟩ | ⟨_, hold⟩
    · rw [hnew]
      exact NewNode_WF extra g w.heap hgwf
    · exact NewNode_WF_frame extra g w.heap gj (hw.wf j gj hold)
  · have key : ∀ (b : Nat) (gb : graph), b ≠ i → w.graphs[b]? = some gb →
        (g.NewNode extra w.heap).2.1.id ≠ gb.id ∧
        (0 < gb.nodes.cap → (g.NewNode extra w.heap).2.1.nodes.array ≠ gb.nodes.array) := by
      intro b gb hbi hgb
      have hs := hw.sep i b g gb hg hgb (fun h => hbi h.symm)
      refine ⟨hs.1, ?_⟩
      intro hcb
      rcases NewNode_array extra g w.heap with ⟨hlt, harr⟩ | harr
      · rw [harr]
        exact hs.2 (by omega) hcb
      · rw [harr]
        have := (hw.wf b gb hgb).valid.array_lt hcb
        omega
    intro a b ga gb hga hgb hab
    rcases getElem?_set_cases _ _ _ _ _ hga with ⟨hai, hnewa⟩ | ⟨hai, holda⟩
    · rcases getElem?_set_cases _ _ _ _ _ hgb with ⟨hbi, _⟩ | ⟨hbi, holdb⟩
      · omega
      · rw [hnewa]
        have := key b gb hbi holdb
        exact ⟨this.1, fun _ hc => this.2 hc⟩
    · rcases getElem?_set_cases _ _ _ _ _ hgb with ⟨hbi, hnewb⟩ | ⟨hbi, holdb⟩
      · rw [hnewb]
        have := key a ga hai holda
        exact ⟨fun h => this.1 h.symm, fun hc _ h => this.2 hc h.symm⟩
      · exact hw.sep a b ga gb holda holdb hab
  · intro p hp
    show p.1 < (w.graphs.set i _).length
    rw [List.length_set]
    rcases List.mem_append.mp hp with hold | hnew
    · exact hw.logged p hold
    · rw [List.mem_singleton.mp hnew]
      exact hilt
  · intro j gj hgj
    rcases getElem?_set_cases _ _ _ _ _ hgj with ⟨hji, hnew⟩ | ⟨hji, hold⟩
    · rw [hnew, hji, returned_log_self, NewNode_toList extra g w.heap hgwf]
      exact congrArg (fun l => l ++ [(g.NewNode extra w.heap).1]) (hw.contents i g hg)
    · rw [returned_log_ne _ _ _ _ _ _ (fun h => hji h.symm)]
      show gj.nodes.toList (append extra w.heap g.nodes _).2 = _
      rw [append_toList_frame extra w.heap g.nodes _ gj.nodes (hw.wf j gj hold).valid]
      · exact hw.contents j gj hold
      · intro hlt harr
        by_cases hc : 0 < gj.nodes.cap
        · exact absurd harr ((hw.sep j i gj g hold hg hji).2 hc (by omega))
        · have := (hw.wf j gj hold).valid.1
          omega
  · intro j gj hgj
    rcases getElem?_set_cases _ _ _ _ _ hgj with ⟨hji, hnew⟩ | ⟨hji, hold⟩
    · rw [hnew, hji, returned_log_self]
      show _ = List.map (nodeAt g.id) (List.range (append extra w.heap g.nodes _).1.len)
      rw [append_len, List.range_succ, List.map_append, NewNode_eq_nodeAt extra g w.heap hgwf]
      exact congrArg (fun l => l ++ [nodeAt g.id g.nodes.len]) (hw.ids i g hg)
    · rw [returned_log_ne _ _ _ _ _ _ (fun h => hji h.symm)]
      exact hw.ids j gj hold

theorem World.step_NewNode_some (extra : Nat → Nat) (w : World) (i : Nat) (g : graph)
    (hg : w.graphs[i]? = some g) :
    w.step extra (Call.NewNode i) =
      { heap := (g.NewNode extra w.heap).2.2,
        graphs := w.graphs.set i (g.NewNode extra w.heap).2.1,
        log := w.log ++ [(i, (g.NewNode extra w.heap).1)] } := by
  simp only [World.step, hg]

theorem World.step_NewNode_none (extra : Nat → Nat) (w : World) (i : Nat)
    (hg : w.graphs[i]? = none) : w.step extra (Call.NewNode i) = w := by
  simp only [World.step, hg]

theorem World.step_Nodes (extra : Nat → Nat) (w : World) (i : Nat) :
    w.step extra (Call.Nodes i) = w := by
  cases hg : w.graphs[i]? with
  | none => simp only [World.step, hg]
  | some g =>
    simp only [World.step, hg, graph.Nodes]
    rw [set_of_getElem? _ _ _ hg]

theorem World.Inv.inv_step (extra : Nat → Nat) {w : World} (hw : w.Inv) (c : Call) :
    (w.step extra c).Inv := by
  cases c with
  | New => exact hw.step_New extra
  | NewNode i =>
    cases hg : w.graphs[i]? with
    | none =>
      rw [World.step_NewNode_none extra w i hg]
      exact hw
    | some g =>
      rw [World.step_NewNode_some extra w i g hg]
      exact hw.step_NewNode extra i g hg
  | Nodes i =>
    rw [World.step_Nodes]
    exact hw

theorem World.Inv.inv_exec (extra : Nat → Nat) (calls : List Call) :
    ∀ {w : World}, w.Inv → (w.exec extra calls).Inv := by
  induction calls with
  | nil => exact fun hw => hw
  | cons c cs ih => exact fun hw => ih (hw.inv_step extra c)

theorem World.run_inv (extra : Nat → Nat) (calls : List Call) :
    (World.run extra calls).Inv :=
  World.init_inv.inv_exec extra calls

/-! ## Equality of nodes -/

theorem node.eq_iff (a b : node) : a.eq b = true ↔ a = b := by
  cases a
  cases b
  simp [node.eq]

theorem nodeEq_iff (a b : Node) : nodeEq a b = true ↔ a = b := by
  cases a <;> cases b <;> simp [nodeEq, node.eq_iff]

theorem nodeEq_eq_decide (a b : Node) : nodeEq a b = decide (a = b) := by
  by_cases hab : a = b
  · simp [hab, (nodeEq_iff b b).mpr rfl]
  · have : nodeEq a b ≠ true := fun h => hab ((nodeEq_iff a b).mp h)
    simp [hab, this]

theorem nodeAt_ne_of_lt (t k l : Nat) (hkl : k < l) (hl : l < maxInt) :
    nodeAt t k ≠ nodeAt t l := by
  intro h
  have h1 := wrapInt_of_le_maxInt (k + 1) (by omega)
  have h2 := wrapInt_of_le_maxInt (l + 1) (by omega)
  simp only [nodeAt, Option.some.injEq, node.mk.injEq, true_and] at h
  push_cast at h1 h2
  rw [h1, h2] at h
  omega

theorem idLess_nodeAt (t k l : Nat) (hkl : k < l) (hl : l < maxInt) :
    idLess (nodeAt t k) (nodeAt t l) := by
  refine ⟨_, _, rfl, rfl, ?_⟩
  have h1 := wrapInt_of_le_maxInt (k + 1) (by omega)
  have h2 := wrapInt_of_le_maxInt (l + 1) (by omega)
  push_cast at h1 h2
  show wrapInt (k + 1) < wrapInt (l + 1)
  rw [h1, h2]
  omega

/-! ## What a reachable graph stores -/

theorem World.nodesOf_eq_returned (extra : Nat → Nat) (calls : List Call) (i : Nat) :
    (World.run extra calls).nodesOf i = (World.run extra calls).returned i := by
  have hw := World.run_inv extra calls
  unfold World.nodesOf
  cases hg : (World.run extra calls).graphs[i]? with
  | none =>
    refine (World.returned_of_not_logged _ i hw.logged ?_).symm
    exact List.getElem?_eq_none_iff.mp hg
  | some g => exact hw.contents i g hg

theorem readNodes_eq_returned (extra : Nat → Nat) (calls : List Call) (i : Nat) (g : graph)
    (hg : (World.run extra calls).graphs[i]? = some g) :
    g.readNodes (World.run extra calls).heap = (World.run extra calls).returned i :=
  (World.run_inv extra calls).contents i g hg

theorem readNodes_after_NewNode (extra : Nat → Nat) (calls : List Call) (i : Nat) (g : graph)
    (hg : (World.run extra calls).graphs[i]? = some g) :
    (g.NewNode extra (World.run extra calls).heap).2.1.readNodes
        (g.NewNode extra (World.run extra calls).heap).2.2 =
      g.readNodes (World.run extra calls).heap ++
        [(g.NewNode extra (World.run extra calls).heap).1] :=
  NewNode_toList extra g _ ((World.run_inv extra calls).wf i g hg)

/-! ## Counting the calls on one graph -/

theorem World.run_append (extra : Nat → Nat) (pre rest : List Call) :
    World.run extra (pre ++ rest) = (World.run extra pre).exec extra rest := by
  simp [World.run, World.exec, List.foldl_append]

theorem World.exec_cons (extra : Nat → Nat) (w : World) (c : Call) (cs : List Call) :
    w.exec extra (c :: cs) = (w.step extra c).exec extra cs := rfl

theorem World.step_graphs_length (extra : Nat → Nat) (w : World) (c : Call) :
    w.graphs.length ≤ (w.step extra c).graphs.length := by
  cases c with
  | New => simp [World.step]
  | NewNode i =>
    cases hg : w.graphs[i]? with
    | none => rw [World.step_NewNode_none extra w i hg]
    | some g => simp [World.step_NewNode_some extra w i g hg]
  | Nodes i => rw [World.step_Nodes]

theorem World.returned_step (extra : Nat → Nat) (w : World) (c : Call) (i : Nat)
    (hi : i < w.graphs.length) :
    ((w.step extra c).returned i).length =
      (w.returned i).length + (if c = Call.NewNode i then 1 else 0) := by
  cases c with
  | New => simp [World.step, World.returned]
  | NewNode j =>
    cases hg : w.graphs[j]? with
    | none =>
      have hji : j ≠ i := by
        intro h
        subst h
        have := List.getElem?_eq_none_iff.mp hg
        omega
      rw [World.step_NewNode_none extra w j hg]
      simp [hji]
    | some g =>
      rw [World.step_NewNode_some extra w j g hg]
      by_cases hji : j = i
      · subst hji
        rw [returned_log_self]
        simp [World.returned]
      · rw [returned_log_ne _ _ _ _ _ _ hji]
        simp [World.returned, hji]
  | Nodes j =>
    rw [World.step_Nodes]
    simp

theorem World.returned_exec (extra : Nat → Nat) (rest : List Call) (i : Nat) :
    ∀ (w : World), i < w.graphs.length →
      ((w.exec extra rest).returned i).length =
        (w.returned i).length + rest.count (Call.NewNode i) := by
  induction rest with
  | nil =>
    intro w _
    simp [World.exec]
  | cons c cs ih =>
    intro w hi
    have hi2 : i < (w.step extra c).graphs.length :=
      Nat.lt_of_lt_of_le hi (World.step_graphs_length extra w c)
    rw [World.exec_cons, ih _ hi2, World.returned_step extra w c i hi, List.count_cons]
    by_cases hc : c = Call.NewNode i
    · simp [hc]
      omega
    · simp [hc]

/-- On a graph just created by `New()`, the number of nodes returned so far is
the number of `NewNode` calls made on it. -/
theorem World.returned_length_after_New (extra : Nat → Nat) (pre rest : List Call) :
    ((World.run extra (pre ++ Call.New :: rest)).returned
        (World.run extra pre).graphs.length).length =
      rest.count (Call.NewNode (World.run extra pre).graphs.length) := by
  rw [World.run_append, World.exec_cons, World.returned_exec]
  · have hz : (World.run extra pre).returned (World.run extra pre).graphs.length = [] :=
      World.returned_of_not_logged _ _ (World.run_inv extra pre).logged (Nat.le_refl _)
    have hsame : ((World.run extra pre).step extra Call.New).returned
        (World.run extra pre).graphs.length =
        (World.run extra pre).returned (World.run extra pre).graphs.length := rfl
    rw [hsame, hz]
    simp
  · simp [World.step]

/-! ## The token and the ids of a reachable graph -/

theorem World.step_id (extra : Nat → Nat) (w : World) (c : Call) (i : Nat) (g : graph)
    (hg : w.graphs[i]? = some g) :
    ∃ g2, (w.step extra c).graphs[i]? = some g2 ∧ g2.id = g.id := by
  have hi : i < w.graphs.length := (List.getElem?_eq_some.mp hg).1
  cases c with
  | New =>
    refine ⟨g, ?_, rfl⟩
    show (w.graphs ++ [_])[i]? = some g
    rw [List.getElem?_append_left hi]
    exact hg
  | NewNode j =>
    cases hj : w.graphs[j]? with
    | none =>
      rw [World.step_NewNode_none extra w j hj]
      exact ⟨g, hg, rfl⟩
    | some gj =>
      rw [World.step_NewNode_some extra w j gj hj]
      by_cases hji : j = i
      · subst hji
        have hgj : gj = g := Option.some.inj (hj.symm.trans hg)
        refine ⟨_, List.getElem?_set_self hi, ?_⟩
        rw [hgj]
        rfl
      · refine ⟨g, ?_, rfl⟩
        show (w.graphs.set j _)[i]? = some g
        rw [List.getElem?_set_ne hji]
        exact hg
  | Nodes j =>
    rw [World.step_Nodes]
    exact ⟨g, hg, rfl⟩

theorem World.exec_id (extra : Nat → Nat) (rest : List Call) (i : Nat) :
    ∀ (w : World) (g : graph), w.graphs[i]? = some g →
      ∃ g2, (w.exec extra rest).graphs[i]? = some g2 ∧ g2.id = g.id := by
  induction rest with
  | nil => exact fun w g hg => ⟨g, hg, rfl⟩
  | cons c cs ih =>
    intro w g hg
    obtain ⟨g1, hg1, hid1⟩ := World.step_id extra w c i g hg
    obtain ⟨g2, hg2, hid2⟩ := ih _ g1 hg1
    exact ⟨g2, hg2, hid2.trans hid1⟩

/-- The graph created by `New()` is still there after any further calls, with
the token `New` gave it. -/
theorem World.graph_after_New (extra : Nat → Nat) (pre rest : List Call) :
    ∃ g, (World.run extra (pre ++ Call.New :: rest)).graphs[
        (World.run extra pre).graphs.length]? = some g ∧
      g.id = (New (World.run extra pre).heap).1.id := by
  rw [World.run_append, World.exec_cons]
  refine World.exec_id extra rest _ _ _ ?_
  show ((World.run extra pre).graphs ++ [_])[(World.run extra pre).graphs.length]? = _
  rw [List.getElem?_concat_length]

theorem World.len_eq_returned (extra : Nat → Nat) (calls : List Call) (i : Nat) (g : graph)
    (hg : (World.run extra calls).graphs[i]? = some g) :
    g.nodes.len = ((World.run extra calls).returned i).length := by
  rw [(World.run_inv extra calls).ids i g hg]
  simp

theorem pairwise_idLess_nodeAt (t n : Nat) (hn : n ≤ maxInt) :
    List.Pairwise idLess (List.map (nodeAt t) (List.range n)) := by
  rw [List.pairwise_map]
  refine List.Pairwise.imp_of_mem ?_ (List.pairwise_lt_range n)
  intro a b _ hb hab
  have : b < n := List.mem_range.mp hb
  exact idLess_nodeAt t a b hab (by omega)

theorem nodup_ids_nodeAt (t n : Nat) (hn : n ≤ maxInt) :
    (List.map (Option.map node.nodeID) (List.map (nodeAt t) (List.range n))).Nodup := by
  rw [List.map_map]
  refine List.Nodup.map_on ?_ (List.nodup_range n)
  intro x hx y hy hxy
  have hx2 : x < n := List.mem_range.mp hx
  have hy2 : y < n := List.mem_range.mp hy
  have h1 := wrapInt_of_le_maxInt (x + 1) (by omega)
  have h2 := wrapInt_of_le_maxInt (y + 1) (by omega)
  simp only [Function.comp, nodeAt, Option.map_some', Option.some.injEq] at hxy
  push_cast at h1 h2
  rw [h1, h2] at hxy
  omega

/-! ## Slices held by the caller -/

theorem World.Safe.safe_step (extra : Nat → Nat) {w : World} {s : Slice} (hs : w.Safe s)
    (c : Call) :
    (w.step extra c).Safe s ∧ s.toList (w.step extra c).heap = s.toList w.heap := by
  cases c with
  | New =>
    refine ⟨⟨hs.1.valid_alloc _, ?_⟩, Slice.toList_alloc hs.1 _⟩
    intro j gj hgj hlt harr
    rcases getElem?_concat_cases _ _ _ _ hgj with hold | ⟨_, hnew⟩
    · exact hs.2 j gj hold hlt harr
    · rw [hnew] at hlt
      exact absurd hlt (Nat.lt_irrefl 0)
  | NewNode k =>
    cases hk : w.graphs[k]? with
    | none =>
      rw [World.step_NewNode_none extra w k hk]
      exact ⟨hs, rfl⟩
    | some gk =>
      rw [World.step_NewNode_some extra w k gk hk]
      refine ⟨⟨append_valid_frame extra w.heap gk.nodes _ s hs.1, ?_⟩, ?_⟩
      · intro j gj hgj hlt harr
        rcases getElem?_set_cases _ _ _ _ _ hgj with ⟨_, hnew⟩ | ⟨_, hold⟩
        · subst hnew
          have hl : (gk.NewNode extra w.heap).2.1.nodes.len = gk.nodes.len + 1 :=
            append_len extra w.heap gk.nodes _
          rcases NewNode_array extra gk w.heap with ⟨hlt2, harr2⟩ | harr2
          · have := hs.2 k gk hk hlt2 (harr2.symm.trans harr)
            omega
          · by_cases hc : 0 < s.cap
            · have := hs.1.array_lt hc
              omega
            · have := hs.1.1
              omega
        · exact hs.2 j gj hold hlt harr
      · exact append_toList_frame extra w.heap gk.nodes _ s hs.1
          (fun hlt harr => hs.2 k gk hk hlt harr.symm)
  | Nodes k =>
    rw [World.step_Nodes]
    exact ⟨hs, rfl⟩

theorem World.Safe.safe_exec (extra : Nat → Nat) (rest : List Call) (s : Slice) :
    ∀ (w : World), w.Safe s → s.toList (w.exec extra rest).heap = s.toList w.heap := by
  induction rest with
  | nil => exact fun _ _ => rfl
  | cons c cs ih =>
    intro w hs
    rw [World.exec_cons, ih _ (hs.safe_step extra c).1]
    exact (hs.safe_step extra c).2

theorem World.Inv.safe {w : World} (hw : w.Inv) (i : Nat) (g : graph)
    (hg : w.graphs[i]? = some g) : w.Safe g.nodes := by
  refine ⟨(hw.wf i g hg).valid, ?_⟩
  intro j gj hgj hlt harr
  by_cases hji : j = i
  · subst hji
    have : gj = g := Option.some.inj (hgj.symm.trans hg)
    rw [this]
  · by_cases hc : 0 < g.nodes.cap
    · exact absurd harr ((hw.sep j i gj g hgj hg hji).2 (by omega) hc)
    · have := (hw.wf i g hg).valid.1
      omega

/-! ## Lemmas on records of events -/

theorem producedNotRemoved_cons (ev : Event) (rest : List Event) (n : Node) :
    producedNotRemoved (ev :: rest) n =
      ((decide (ev = Event.produced n) && !decide (Event.removed n ∈ rest)) ||
        producedNotRemoved rest n) := rfl

theorem producedNotRemoved_append_produced (evs : List Event) (n m : Node) :
    producedNotRemoved (evs ++ [Event.produced n]) m =
      (producedNotRemoved evs m || decide (m = n)) := by
  induction evs with
  | nil =>
    by_cases hmn : m = n
    · simp [producedNotRemoved, hmn]
    · have : n ≠ m := fun h => hmn h.symm
      simp [producedNotRemoved, hmn, this]
  | cons ev rest ih =>
    rw [List.cons_append, producedNotRemoved_cons, producedNotRemoved_cons, ih]
    simp [Bool.or_assoc]

theorem producedNotRemoved_append_removed (evs : List Event) (n m : Node) :
    producedNotRemoved (evs ++ [Event.removed n]) m =
      (producedNotRemoved evs m && decide (m ≠ n)) := by
  induction evs with
  | nil => simp [producedNotRemoved]
  | cons ev rest ih =>
    rw [List.cons_append, producedNotRemoved_cons, producedNotRemoved_cons, ih]
    by_cases hmn : m = n
    · simp [hmn]
    · have : n ≠ m := fun h => hmn h.symm
      simp [hmn, this]

theorem producedNotRemoved_append_connected (evs : List Event) (e : Edge) (m : Node) :
    producedNotRemoved (evs ++ [Event.connected e]) m = producedNotRemoved evs m := by
  induction evs with
  | nil => simp [producedNotRemoved]
  | cons ev rest ih =>
    rw [List.cons_append, producedNotRemoved_cons, producedNotRemoved_cons, ih]
    simp

theorem producedNotRemoved_append_disconnected (evs : List Event) (e : Edge) (m : Node) :
    producedNotRemoved (evs ++ [Event.disconnected e]) m = producedNotRemoved evs m := by
  induction evs with
  | nil => simp [producedNotRemoved]
  | cons ev rest ih =>
    rw [List.cons_append, producedNotRemoved_cons, producedNotRemoved_cons, ih]
    simp

theorem produced_of_producedNotRemoved (evs : List Event) (n : Node)
    (h : producedNotRemoved evs n = true) : Event.produced n ∈ evs := by
  induction evs with
  | nil => simp [producedNotRemoved] at h
  | cons ev rest ih =>
    rw [producedNotRemoved_cons] at h
    simp only [Bool.or_eq_true, Bool.and_eq_true, decide_eq_true_eq] at h
    rcases h with ⟨hev, _⟩ | hrest
    · rw [hev]
      exact List.mem_cons_self _ _
    · exact List.mem_cons_of_mem _ (ih hrest)

theorem survivors_connected_cons (e : Edge) (rest : List Event) :
    survivors (Event.connected e :: rest) =
      if rest.any (fun ev => ev.drops e) then survivors rest else e :: survivors rest := rfl

theorem survivors_produced_cons (n : Node) (rest : List Event) :
    survivors (Event.produced n :: rest) = survivors rest := rfl

theorem survivors_removed_cons (n : Node) (rest : List Event) :
    survivors (Event.removed n :: rest) = survivors rest := rfl

theorem survivors_disconnected_cons (e : Edge) (rest : List Event) :
    survivors (Event.disconnected e :: rest) = survivors rest := rfl

theorem drops_connected (e0 e : Edge) : (Event.connected e0).drops e = false := rfl

theorem drops_produced (n : Node) (e : Edge) : (Event.produced n).drops e = false := rfl

theorem drops_removed (n : Node) (e : Edge) : (Event.removed n).drops e = e.incident n := rfl

theorem drops_disconnected (e0 e : Edge) :
    (Event.disconnected e0).drops e = decide (e0 = e) := rfl

theorem survivors_append_connected (evs : List Event) (e : Edge) :
    survivors (evs ++ [Event.connected e]) = survivors evs ++ [e] := by
  induction evs with
  | nil => simp [survivors_connected_cons, survivors]
  | cons ev rest ih =>
    cases ev with
    | connected e0 =>
      rw [List.cons_append, survivors_connected_cons, survivors_connected_cons, ih,
        List.any_append]
      simp only [List.any_cons, List.any_nil, drops_connected, Bool.or_false]
      split <;> simp
    | produced n =>
      rw [List.cons_append, survivors_produced_cons, survivors_produced_cons, ih]
    | removed n =>
      rw [List.cons_append, survivors_removed_cons, survivors_removed_cons, ih]
    | disconnected e0 =>
      rw [List.cons_append, survivors_disconnected_cons, survivors_disconnected_cons, ih]

theorem survivors_append_drop (evs : List Event) (ev : Event)
    (hev : ∀ e : Edge, ev ≠ Event.connected e) :
    survivors (evs ++ [ev]) = (survivors evs).filter (fun e => !ev.drops e) := by
  induction evs with
  | nil =>
    cases ev with
    | connected e => exact absurd rfl (hev e)
    | produced n => rfl
    | removed n => rfl
    | disconnected e0 => rfl
  | cons ev0 rest ih =>
    cases ev0 with
    | connected e0 =>
      rw [List.cons_append, survivors_connected_cons, survivors_connected_cons, ih,
        List.any_append]
      simp only [List.any_cons, List.any_nil, Bool.or_false]
      by_cases h1 : (rest.any fun ev2 => ev2.drops e0) = true
      · simp [h1]
      · by_cases h2 : ev.drops e0 = true
        · simp [h1, h2, List.filter_cons]
        · simp [h1, h2, List.filter_cons]
    | produced n =>
      rw [List.cons_append, survivors_produced_cons, survivors_produced_cons, ih]
    | removed n =>
      rw [List.cons_append, survivors_removed_cons, survivors_removed_cons, ih]
    | disconnected e0 =>
      rw [List.cons_append, survivors_disconnected_cons, survivors_disconnected_cons, ih]

theorem survivors_append_produced (evs : List Event) (n : Node) :
    survivors (evs ++ [Event.produced n]) = survivors evs := by
  rw [survivors_append_drop evs _ (fun e h => by cases h)]
  simp [drops_produced]

theorem mem_connected_of_mem_survivors (evs : List Event) (e : Edge)
    (h : e ∈ survivors evs) : Event.connected e ∈ evs := by
  induction evs with
  | nil => simp [survivors] at h
  | cons ev rest ih =>
    cases ev with
    | connected e0 =>
      rw [survivors_connected_cons] at h
      split at h
      · exact List.mem_cons_of_mem _ (ih h)
      · rcases List.mem_cons.mp h with heq | hrest
        · rw [heq]
          exact List.mem_cons_self _ _
        · exact List.mem_cons_of_mem _ (ih hrest)
    | produced n => exact List.mem_cons_of_mem _ (ih h)
    | removed n => exact List.mem_cons_of_mem _ (ih h)
    | disconnected e0 => exact List.mem_cons_of_mem _ (ih h)

/-- In a record without removals the survivors are the edges connected and not
disconnected since. -/
theorem survivors_eq_connectedNotDisconnected (evs : List Event)
    (h : ∀ n : Node, Event.removed n ∉ evs) :
    survivors evs = connectedNotDisconnected evs := by
  induction evs with
  | nil => rfl
  | cons ev rest ih =>
    have hrest : ∀ n : Node, Event.removed n ∉ rest :=
      fun n hn => h n (List.mem_cons_of_mem _ hn)
    cases ev with
    | connected e0 =>
      have hany : (rest.any fun ev2 => ev2.drops e0) = decide (Event.disconnected e0 ∈ rest) := by
        rw [Bool.eq_iff_iff]
        simp only [List.any_eq_true, decide_eq_true_eq]
        constructor
        · rintro ⟨ev2, hmem, hdrop⟩
          cases ev2 with
          | disconnected e2 =>
            rw [drops_disconnected, decide_eq_true_eq] at hdrop
            rw [← hdrop]
            exact hmem
          | removed n => exact absurd hmem (hrest n)
          | produced n => exact absurd hdrop (by simp [drops_produced])
          | connected e2 => exact absurd hdrop (by simp [drops_connected])
        · intro hmem
          exact ⟨_, hmem, by simp [drops_disconnected]⟩
      rw [survivors_connected_cons, hany, ih hrest]
      rfl
    | produced n => exact ih hrest
    | removed n => exact absurd (List.mem_cons_self _ _) (h n)
    | disconnected e0 => exact ih hrest

/-! ## Lemmas on the operations of the specification -/

theorem Graph.contains_iff (g : Graph) (n : Node) : g.Contains n = true ↔ n ∈ g.nodes := by
  simp [Graph.Contains]

theorem Graph.contains_false_iff (g : Graph) (n : Node) :
    g.Contains n = false ↔ n ∉ g.nodes := by
  simp [Graph.Contains]

theorem Graph.Remove_contained (g : Graph) (n : Node) (h : g.Contains n = true) :
    g.Remove n = (none, Graph.mk g.id g.lastNodeID
      (g.nodes.filter (fun m => decide (m ≠ n)))
      (g.edges.filter (fun e => !e.incident n))) := by
  simp [Graph.Remove, h]

theorem Graph.Remove_not_contained (g : Graph) (n : Node) (h : g.Contains n = false) :
    g.Remove n = (some Error.NodeNotFound, g) := by
  simp [Graph.Remove, h]

theorem Graph.Connect_not_contained (g : Graph) (a b : Node)
    (h : g.Contains a = false ∨ g.Contains b = false) :
    g.Connect a b = (some Error.NodeNotFound, g) := by
  rcases h with h | h <;> simp [Graph.Connect, h]

theorem Graph.Connect_duplicate (g : Graph) (a b : Node)
    (ha : g.Contains a = true) (hb : g.Contains b = true)
    (he : Edge.mk a b ∈ g.edges) :
    g.Connect a b = (some Error.DuplicateEdge, g) := by
  simp [Graph.Connect, ha, hb, he]

theorem Graph.Connect_fresh (g : Graph) (a b : Node)
    (ha : g.Contains a = true) (hb : g.Contains b = true)
    (he : Edge.mk a b ∉ g.edges) :
    g.Connect a b = (none, Graph.mk g.id g.lastNodeID g.nodes
      (g.edges ++ [Edge.mk a b])) := by
  simp [Graph.Connect, ha, hb, he]

theorem Graph.Disconnect_not_contained (g : Graph) (a b : Node)
    (h : g.Contains a = false ∨ g.Contains b = false) :
    g.Disconnect a b = (some Error.NodeNotFound, g) := by
  rcases h with h | h <;> simp [Graph.Disconnect, h]

theorem Graph.Disconnect_missing (g : Graph) (a b : Node)
    (ha : g.Contains a = true) (hb : g.Contains b = true)
    (he : Edge.mk a b ∉ g.edges) :
    g.Disconnect a b = (some Error.EdgeNotFound, g) := by
  simp [Graph.Disconnect, ha, hb, he]

theorem Graph.Disconnect_present (g : Graph) (a b : Node)
    (ha : g.Contains a = true) (hb : g.Contains b = true)
    (he : Edge.mk a b ∈ g.edges) :
    g.Disconnect a b = (none, Graph.mk g.id g.lastNodeID g.nodes
      (g.edges.filter (fun e => decide (e ≠ Edge.mk a b)))) := by
  simp [Graph.Disconnect, ha, hb, he]

/-- Every outcome of `Remove`: success on a contained node, `NodeNotFound`
and the same state otherwise. -/
theorem Graph.Remove_cases (g : Graph) (n : Node) :
    (g.Contains n = true ∧ g.Remove n = (none, Graph.mk g.id g.lastNodeID
      (g.nodes.filter (fun m => decide (m ≠ n)))
      (g.edges.filter (fun e => !e.incident n)))) ∨
    (g.Contains n = false ∧ g.Remove n = (some Error.NodeNotFound, g)) := by
  cases h : g.Contains n with
  | true => exact Or.inl ⟨rfl, Graph.Remove_contained g n h⟩
  | false => exact Or.inr ⟨rfl, Graph.Remove_not_contained g n h⟩

/-- Every outcome of `Connect`: success with the edge appended, or an error
and the same state. -/
theorem Graph.Connect_cases (g : Graph) (a b : Node) :
    (g.Contains a = true ∧ g.Contains b = true ∧
      Edge.mk a b ∉ g.edges ∧
      g.Connect a b = (none, Graph.mk g.id g.lastNodeID g.nodes
        (g.edges ++ [Edge.mk a b]))) ∨
    (∃ err, g.Connect a b = (some err, g)) := by
  cases ha : g.Contains a with
  | false => exact Or.inr ⟨_, Graph.Connect_not_contained g a b (Or.inl ha)⟩
  | true =>
    cases hb : g.Contains b with
    | false => exact Or.inr ⟨_, Graph.Connect_not_contained g a b (Or.inr hb)⟩
    | true =>
      by_cases he : Edge.mk a b ∈ g.edges
      · exact Or.inr ⟨_, Graph.Connect_duplicate g a b ha hb he⟩
      · exact Or.inl ⟨rfl, rfl, he, Graph.Connect_fresh g a b ha hb he⟩

/-- Every outcome of `Disconnect`: success with the edge filtered out, or an
error and the same state. -/
theorem Graph.Disconnect_cases (g : Graph) (a b : Node) :
    (g.Contains a = true ∧ g.Contains b = true ∧
      Edge.mk a b ∈ g.edges ∧
      g.Disconnect a b = (none, Graph.mk g.id g.lastNodeID g.nodes
        (g.edges.filter (fun e => decide (e ≠ Edge.mk a b))))) ∨
    (∃ err, g.Disconnect a b = (some err, g)) := by
  cases ha : g.Contains a with
  | false => exact Or.inr ⟨_, Graph.Disconnect_not_contained g a b (Or.inl ha)⟩
  | true =>
    cases hb : g.Contains b with
    | false => exact Or.inr ⟨_, Graph.Disconnect_not_contained g a b (Or.inr hb)⟩
    | true =>
      by_cases he : Edge.mk a b ∈ g.edges
      · exact Or.inl ⟨rfl, rfl, he, Graph.Disconnect_present g a b ha hb he⟩
      · exact Or.inr ⟨_, Graph.Disconnect_missing g a b ha hb he⟩

theorem Edge.incident_false_iff (e : Edge) (n : Node) :
    e.incident n = false ↔ e.Origin ≠ n ∧ e.Destination ≠ n := by
  simp [Edge.incident]

/-! ## Consistency is preserved -/

theorem Graph.consistent_New (h : Heap) : (Graph.New h).1.Consistent := by
  refine ⟨?_, List.nodup_nil⟩
  intro e he
  cases he

theorem Graph.consistent_NewNode (g : Graph) (hg : g.Consistent) :
    g.NewNode.2.Consistent := by
  refine ⟨?_, hg.2⟩
  intro e he
  have := hg.1 e he
  rw [Graph.contains_iff, Graph.contains_iff] at this ⊢
  exact ⟨List.mem_append_left _ this.1, List.mem_append_left _ this.2⟩

theorem Graph.consistent_Remove (g : Graph) (n : Node) (hg : g.Consistent) :
    (g.Remove n).2.Consistent := by
  rcases Graph.Remove_cases g n with ⟨hc, heq⟩ | ⟨hc, heq⟩
  · rw [heq]
    refine ⟨?_, hg.2.filter _⟩
    intro e he
    obtain ⟨hmem, hinc⟩ := List.mem_filter.mp he
    have hends := hg.1 e hmem
    rw [Graph.contains_iff, Graph.contains_iff] at hends ⊢
    have hne : e.Origin ≠ n ∧ e.Destination ≠ n := by
      rw [← Edge.incident_false_iff]
      simpa using hinc
    exact ⟨List.mem_filter.mpr ⟨hends.1, by simpa using hne.1⟩,
      List.mem_filter.mpr ⟨hends.2, by simpa using hne.2⟩⟩
  · rw [heq]
    exact hg

theorem Graph.consistent_Connect (g : Graph) (a b : Node) (hg : g.Consistent) :
    (g.Connect a b).2.Consistent := by
  rcases Graph.Connect_cases g a b with ⟨ha, hb, he, heq⟩ | ⟨err, heq⟩
  · rw [heq]
    refine ⟨?_, ?_⟩
    · intro e hmem
      rcases List.mem_append.mp hmem with hold | hnew
      · exact hg.1 e hold
      · rw [List.mem_singleton.mp hnew]
        exact ⟨ha, hb⟩
    · show (g.edges ++ [_]).Nodup
      rw [List.nodup_append]
      refine ⟨hg.2, List.nodup_singleton _, ?_⟩
      intro x hx hx2
      rw [List.mem_singleton.mp hx2] at hx
      exact he hx
  · rw [heq]
    exact hg

theorem Graph.consistent_Disconnect (g : Graph) (a b : Node) (hg : g.Consistent) :
    (g.Disconnect a b).2.Consistent := by
  rcases Graph.Disconnect_cases g a b with ⟨ha, hb, he, heq⟩ | ⟨err, heq⟩
  · rw [heq]
    refine ⟨?_, hg.2.filter _⟩
    intro e hmem
    exact hg.1 e (List.mem_filter.mp hmem).1
  · rw [heq]
    exact hg

/-! ## Calls on a tracked graph -/

theorem Tracked.apply_NewNode (t : Tracked) :
    t.apply Op.NewNode =
      Tracked.mk t.graph.NewNode.2 (t.events ++ [Event.produced t.graph.NewNode.1]) := rfl

theorem Tracked.apply_Remove_contained (t : Tracked) (n : Node)
    (h : t.graph.Contains n = true) :
    t.apply (Op.Remove n) =
      Tracked.mk (Graph.mk t.graph.id t.graph.lastNodeID
        (t.graph.nodes.filter (fun m => decide (m ≠ n)))
        (t.graph.edges.filter (fun e => !e.incident n)))
        (t.events ++ [Event.removed n]) := by
  simp only [Tracked.apply, Graph.Remove_contained _ _ h]

theorem Tracked.apply_Remove_not_contained (t : Tracked) (n : Node)
    (h : t.graph.Contains n = false) : t.apply (Op.Remove n) = t := by
  simp only [Tracked.apply, Graph.Remove_not_contained _ _ h]

theorem Tracked.apply_Connect_fresh (t : Tracked) (a b : Node)
    (ha : t.graph.Contains a = true) (hb : t.graph.Contains b = true)
    (he : Edge.mk a b ∉ t.graph.edges) :
    t.apply (Op.Connect a b) =
      Tracked.mk (Graph.mk t.graph.id t.graph.lastNodeID t.graph.nodes
        (t.graph.edges ++ [Edge.mk a b]))
        (t.events ++ [Event.connected (Edge.mk a b)]) := by
  simp only [Tracked.apply, Graph.Connect_fresh _ _ _ ha hb he]

theorem Tracked.apply_Connect_error (t : Tracked) (a b : Node) (err : Error)
    (h : t.graph.Connect a b = (some err, t.graph)) : t.apply (Op.Connect a b) = t := by
  simp only [Tracked.apply, h]

theorem Tracked.apply_Disconnect_present (t : Tracked) (a b : Node)
    (ha : t.graph.Contains a = true) (hb : t.graph.Contains b = true)
    (he : Edge.mk a b ∈ t.graph.edges) :
    t.apply (Op.Disconnect a b) =
      Tracked.mk (Graph.mk t.graph.id t.graph.lastNodeID t.graph.nodes
        (t.graph.edges.filter (fun e => decide (e ≠ Edge.mk a b))))
        (t.events ++ [Event.disconnected (Edge.mk a b)]) := by
  simp only [Tracked.apply, Graph.Disconnect_present _ _ _ ha hb he]

theorem Tracked.apply_Disconnect_error (t : Tracked) (a b : Node) (err : Error)
    (h : t.graph.Disconnect a b = (some err, t.graph)) :
    t.apply (Op.Disconnect a b) = t := by
  simp only [Tracked.apply, h]

/-- No call changes the token of the graph. -/
theorem Tracked.apply_id (t : Tracked) (op : Op) : (t.apply op).graph.id = t.graph.id := by
  cases op with
  | NewNode => rfl
  | Remove n =>
    rcases Graph.Remove_cases t.graph n with ⟨hc, _⟩ | ⟨hc, _⟩
    · rw [Tracked.apply_Remove_contained t n hc]
    · rw [Tracked.apply_Remove_not_contained t n hc]
  | Connect a b =>
    rcases Graph.Connect_cases t.graph a b with ⟨ha, hb, he, _⟩ | ⟨err, heq⟩
    · rw [Tracked.apply_Connect_fresh t a b ha hb he]
    · rw [Tracked.apply_Connect_error t a b err heq]
  | Disconnect a b =>
    rcases Graph.Disconnect_cases t.graph a b with ⟨ha, hb, he, _⟩ | ⟨err, heq⟩
    · rw [Tracked.apply_Disconnect_present t a b ha hb he]
    · rw [Tracked.apply_Disconnect_error t a b err heq]

theorem Tracked.good_New (h : Heap) : Tracked.Good (Tracked.mk (Graph.New h).1 []) := by
  refine ⟨?_, ?_, ?_, rfl, Graph.consistent_New h⟩
  · intro n hn
    cases hn
  · intro n hn
    cases hn
  · intro n
    rfl

theorem Tracked.good_NewNode (t : Tracked) (ht : t.Good) : (t.apply Op.NewNode).Good := by
  rw [Tracked.apply_NewNode]
  have hnode : t.graph.NewNode.1 =
      some { graphID := t.graph.id, nodeID := wrapInt (t.graph.lastNodeID + 1) } := rfl
  refine ⟨?_, ?_, ?_, ?_, Graph.consistent_NewNode t.graph ht.consistent⟩
  · intro m hm
    rcases List.mem_append.mp hm with hold | hnew
    · exact ht.own m hold
    · exact ⟨_, List.mem_singleton.mp hnew, rfl⟩
  · intro m hm
    rcases List.mem_append.mp hm with hold | hnew
    · exact ht.prod m hold
    · have : m = t.graph.NewNode.1 := by
        have := List.mem_singleton.mp hnew
        exact Event.produced.inj this
      exact ⟨_, this.trans hnode, rfl⟩
  · intro m
    rw [producedNotRemoved_append_produced, ← ht.live m]
    show decide (m ∈ t.graph.nodes ++ [t.graph.NewNode.1]) = _
    rw [Bool.eq_iff_iff]
    simp [Graph.Contains]
  · show t.graph.edges = _
    rw [survivors_append_produced]
    exact ht.edges

theorem Tracked.good_Remove (t : Tracked) (ht : t.Good) (n : Node) :
    (t.apply (Op.Remove n)).Good := by
  rcases Graph.Remove_cases t.graph n with ⟨hc, heq⟩ | ⟨hc, _⟩
  · have hcons := Graph.consistent_Remove t.graph n ht.consistent
    rw [heq] at hcons
    rw [Tracked.apply_Remove_contained t n hc]
    refine ⟨?_, ?_, ?_, ?_, hcons⟩
    · intro m hm
      exact ht.own m (List.mem_filter.mp hm).1
    · intro m hm
      rcases List.mem_append.mp hm with hold | hnew
      · exact ht.prod m hold
      · cases List.mem_singleton.mp hnew
    · intro m
      rw [producedNotRemoved_append_removed, ← ht.live m]
      show decide (m ∈ t.graph.nodes.filter (fun k => decide (k ≠ n))) = _
      rw [Bool.eq_iff_iff]
      simp [Graph.Contains]
    · show t.graph.edges.filter (fun e => !e.incident n) = _
      rw [survivors_append_drop _ _ (fun e h => by cases h), ← ht.edges]
      rfl
  · rw [Tracked.apply_Remove_not_contained t n hc]
    exact ht

theorem Tracked.good_Connect (t : Tracked) (ht : t.Good) (a b : Node) :
    (t.apply (Op.Connect a b)).Good := by
  rcases Graph.Connect_cases t.graph a b with ⟨ha, hb, he, heq⟩ | ⟨err, heq⟩
  · have hcons := Graph.consistent_Connect t.graph a b ht.consistent
    rw [heq] at hcons
    rw [Tracked.apply_Connect_fresh t a b ha hb he]
    refine ⟨ht.own, ?_, ?_, ?_, hcons⟩
    · intro m hm
      rcases List.mem_append.mp hm with hold | hnew
      · exact ht.prod m hold
      · cases List.mem_singleton.mp hnew
    · intro m
      rw [producedNotRemoved_append_connected, ← ht.live m]
      rfl
    · show t.graph.edges ++ [Edge.mk a b] = _
      rw [survivors_append_connected, ← ht.edges]
  · rw [Tracked.apply_Connect_error t a b err heq]
    exact ht

theorem Tracked.good_Disconnect (t : Tracked) (ht : t.Good) (a b : Node) :
    (t.apply (Op.Disconnect a b)).Good := by
  rcases Graph.Disconnect_cases t.graph a b with ⟨ha, hb, he, heq⟩ | ⟨err, heq⟩
  · have hcons := Graph.consistent_Disconnect t.graph a b ht.consistent
    rw [heq] at hcons
    rw [Tracked.apply_Disconnect_present t a b ha hb he]
    refine ⟨ht.own, ?_, ?_, ?_, hcons⟩
    · intro m hm
      rcases List.mem_append.mp hm with hold | hnew
      · exact ht.prod m hold
      · cases List.mem_singleton.mp hnew
    · intro m
      rw [producedNotRemoved_append_disconnected, ← ht.live m]
      rfl
    · show t.graph.edges.filter (fun e => decide (e ≠ Edge.mk a b)) = _
      rw [survivors_append_drop _ _ (fun e h => by cases h), ← ht.edges]
      refine List.filter_congr ?_
      intro e _
      by_cases hab : Edge.mk a b = e
      · simp [drops_disconnected, hab]
      · have : e ≠ Edge.mk a b := fun h => hab h.symm
        simp [drops_disconnected, hab, this]
  · rw [Tracked.apply_Disconnect_error t a b err heq]
    exact ht

theorem Tracked.good_apply (t : Tracked) (ht : t.Good) (op : Op) : (t.apply op).Good := by
  cases op with
  | NewNode => exact Tracked.good_NewNode t ht
  | Remove n => exact Tracked.good_Remove t ht n
  | Connect a b => exact Tracked.good_Connect t ht a b
  | Disconnect a b => exact Tracked.good_Disconnect t ht a b

/-! ## The invariant of the full interface holds in every reachable state -/

theorem Graph.New_id (h : Heap) : (Graph.New h).1.id = h.length := rfl

theorem Graph.New_heap_length (h : Heap) : (Graph.New h).2.length = h.length + 1 := by
  simp [Graph.New, Digraph.New, Heap.alloc]

theorem System.step_on_some (s : System) (i : Nat) (op : Op) (t : Tracked)
    (ht : s.graphs[i]? = some t) :
    s.step (Action.call i op) = System.mk s.heap (s.graphs.set i (t.apply op)) := by
  simp only [System.step, ht]

theorem System.step_on_none (s : System) (i : Nat) (op : Op)
    (ht : s.graphs[i]? = none) : s.step (Action.call i op) = s := by
  simp only [System.step, ht]

theorem System.inv_init : System.init.Inv := by
  refine ⟨?_, ?_, ?_⟩
  · intro i t ht
    simp [System.init] at ht
  · intro i t ht
    simp [System.init] at ht
  · intro i j ti tj hti
    simp [System.init] at hti

theorem System.inv_of_step_New {s : System} (hs : s.Inv) : (s.step Action.New).Inv := by
  refine ⟨?_, ?_, ?_⟩
  · intro i t ht
    rcases getElem?_concat_cases _ _ _ _ ht with hold | ⟨_, hnew⟩
    · exact hs.good i t hold
    · rw [hnew]
      exact Tracked.good_New s.heap
  · intro i t ht
    show t.graph.id < (Graph.New s.heap).2.length
    rw [Graph.New_heap_length]
    rcases getElem?_concat_cases _ _ _ _ ht with hold | ⟨_, hnew⟩
    · exact Nat.lt_succ_of_lt (hs.token i t hold)
    · rw [hnew]
      exact Nat.lt_succ_self _
  · intro i j ti tj hti htj hij
    rcases getElem?_concat_cases _ _ _ _ hti with hi | ⟨hi, hnewi⟩
    · rcases getElem?_concat_cases _ _ _ _ htj with hj | ⟨hj, hnewj⟩
      · exact hs.sep i j ti tj hi hj hij
      · have := hs.token i ti hi
        rw [hnewj]
        show ti.graph.id ≠ s.heap.length
        omega
    · rcases getElem?_concat_cases _ _ _ _ htj with hj | ⟨hj, hnewj⟩
      · have := hs.token j tj hj
        rw [hnewi]
        show s.heap.length ≠ tj.graph.id
        omega
      · omega

theorem System.inv_of_step_on {s : System} (hs : s.Inv) (i : Nat) (op : Op) (t : Tracked)
    (ht : s.graphs[i]? = some t) :
    System.Inv (System.mk s.heap (s.graphs.set i (t.apply op))) := by
  refine ⟨?_, ?_, ?_⟩
  · intro j tj htj
    rcases getElem?_set_cases _ _ _ _ _ htj with ⟨_, hnew⟩ | ⟨_, hold⟩
    · rw [hnew]
      exact Tracked.good_apply t (hs.good i t ht) op
    · exact hs.good j tj hold
  · intro j tj htj
    rcases getElem?_set_cases _ _ _ _ _ htj with ⟨_, hnew⟩ | ⟨_, hold⟩
    · rw [hnew, Tracked.apply_id]
      exact hs.token i t ht
    · exact hs.token j tj hold
  · intro a b ta tb hta htb hab
    rcases getElem?_set_cases _ _ _ _ _ hta with ⟨hai, hnewa⟩ | ⟨hai, holda⟩
    · rcases getElem?_set_cases _ _ _ _ _ htb with ⟨hbi, _⟩ | ⟨hbi, holdb⟩
      · omega
      · rw [hnewa, Tracked.apply_id]
        exact hs.sep i b t tb ht holdb (fun h => hbi h.symm)
    · rcases getElem?_set_cases _ _ _ _ _ htb with ⟨hbi, hnewb⟩ | ⟨hbi, holdb⟩
      · rw [hnewb, Tracked.apply_id]
        exact hs.sep a i ta t holda ht hai
      · exact hs.sep a b ta tb holda holdb hab

theorem System.inv_of_step {s : System} (hs : s.Inv) (a : Action) : (s.step a).Inv := by
  cases a with
  | New => exact System.inv_of_step_New hs
  | call i op =>
    cases ht : s.graphs[i]? with
    | none =>
      rw [System.step_on_none s i op ht]
      exact hs
    | some t =>
      rw [System.step_on_some s i op t ht]
      exact System.inv_of_step_on hs i op t ht

theorem System.inv_of_exec (actions : List Action) :
    ∀ {s : System}, s.Inv → (s.exec actions).Inv := by
  induction actions with
  | nil => exact fun hs => hs
  | cons a rest ih => exact fun hs => ih (System.inv_of_step hs a)

theorem System.inv_run (actions : List Action) : (System.run actions).Inv :=
  System.inv_of_exec actions System.inv_init

/-- A node that another graph produced is not contained. -/
theorem System.foreign_not_contained (actions : List Action) (i j : Nat) (ti tj : Tracked)
    (hi : (System.run actions).graphs[i]? = some ti)
    (hj : (System.run actions).graphs[j]? = some tj) (hij : j ≠ i)
    (n : Node) (hn : producedBy tj.events n) : ti.graph.Contains n = false := by
  have hs := System.inv_run actions
  rw [Graph.contains_false_iff]
  intro hmem
  obtain ⟨x, hx, hxid⟩ := (hs.good i ti hi).own n hmem
  obtain ⟨y, hy, hyid⟩ := (hs.good j tj hj).prod n hn
  have hxy : x = y := Option.some.inj (hx.symm.trans hy)
  exact hs.sep j i tj ti hj hi hij (by rw [← hyid, ← hxid, hxy])

/-! ## The invariant of the struct `graph` -/

theorem graph.readNodes_eq (g : graph) (h : Heap) : g.readNodes h = g.nodes.toList h := rfl

theorem graph.Invariant.length_readNodes {h : Heap} {g : graph} (hg : g.Invariant h) :
    (g.readNodes h).length = g.nodes.len :=
  hg.valid.length_toList

theorem graph.Invariant.toWF {h : Heap} {g : graph} (hg : g.Invariant h)
    (hlen : g.nodes.len ≤ maxInt) : g.WF h := by
  refine ⟨hg.token, hg.valid, ?_⟩
  rw [hg.count, hg.length_readNodes, wrapInt_of_le_maxInt _ hlen]

theorem New_invariant (h : Heap) : (New h).1.Invariant (New h).2 := by
  refine ⟨(New_WF h).token, (New_WF h).valid, rfl, ?_⟩
  intro i hi
  exact absurd hi (Nat.not_lt_zero i)

theorem NewNode_invariant (extra : Nat → Nat) (g : graph) (h : Heap) (hg : g.Invariant h)
    (hlen : g.nodes.len < maxInt) :
    (g.NewNode extra h).2.1.Invariant (g.NewNode extra h).2.2 := by
  have hwf := hg.toWF (Nat.le_of_lt hlen)
  have hwf2 := NewNode_WF extra g h hwf
  have hlist : (g.NewNode extra h).2.1.readNodes (g.NewNode extra h).2.2 =
      g.readNodes h ++ [(g.NewNode extra h).1] := NewNode_toList extra g h hwf
  have hl := hg.length_readNodes
  have hnode : (g.NewNode extra h).1 =
      some { graphID := g.id, nodeID := ((g.readNodes h).length : Int) + 1 } := by
    have hw := wrapInt_of_le_maxInt (g.nodes.len + 1) (by omega)
    push_cast at hw
    rw [NewNode_eq_nodeAt extra g h hwf, hl]
    unfold nodeAt
    rw [hw]
  refine ⟨hwf2.token, hwf2.valid, ?_, ?_⟩
  · rw [hlist]
    show wrapInt (g.lastNodeID + 1) = _
    have hw := wrapInt_of_le_maxInt (g.nodes.len + 1) (by omega)
    push_cast at hw
    rw [hg.count, hl, hw]
    simp [hl]
  · intro i hi
    rw [hlist] at hi ⊢
    have hi2 : i < (g.readNodes h).length + 1 := by simpa using hi
    by_cases hlt : i < (g.readNodes h).length
    · rw [List.getElem?_append_left hlt]
      exact hg.stored i hlt
    · have hieq : i = (g.readNodes h).length := by omega
      rw [hieq, List.getElem?_concat_length, hnode]
      rfl

theorem World.reachable_invariant (extra : Nat → Nat) (calls : List Call) (i : Nat)
    (g : graph) (hg : (World.run extra calls).graphs[i]? = some g)
    (hlen : g.nodes.len ≤ maxInt) : g.Invariant (World.run extra calls).heap := by
  have hw := World.run_inv extra calls
  have hwf := hw.wf i g hg
  have hlist : g.readNodes (World.run extra calls).heap =
      List.map (nodeAt g.id) (List.range g.nodes.len) :=
    (hw.contents i g hg).trans (hw.ids i g hg)
  refine ⟨hwf.token, hwf.valid, ?_, ?_⟩
  · rw [hwf.counter, wrapInt_of_le_maxInt _ hlen, hlist]
    simp
  · intro k hk
    rw [hlist] at hk ⊢
    have hk2 : k < g.nodes.len := by simpa using hk
    have hw2 := wrapInt_of_le_maxInt (k + 1) (by omega)
    push_cast at hw2
    rw [List.getElem?_map, List.getElem?_range hk2, Option.map_some']
    unfold nodeAt
    rw [hw2]

/-- `New` of the extended state is `New` of the source on the corresponding
state, and allocates the same token. -/
theorem New_abs (h : Heap) :
    (New h).1.abs (New h).2 = (Graph.New h).1 ∧ (New h).2 = (Graph.New h).2 :=
  ⟨rfl, rfl⟩

/-- `NewNode` of the extended state is `NewNode` of the source on the
corresponding state: the same node is returned and the resulting states
correspond. -/
theorem NewNode_abs (extra : Nat → Nat) (g : graph) (h : Heap) (hg : g.WF h) :
    (g.NewNode extra h).1 = (g.abs h).NewNode.1 ∧
    (g.NewNode extra h).2.1.abs (g.NewNode extra h).2.2 = (g.abs h).NewNode.2 := by
  refine ⟨rfl, ?_⟩
  show Graph.mk g.id (wrapInt (g.lastNodeID + 1))
      ((g.NewNode extra h).2.1.readNodes (g.NewNode extra h).2.2) [] = _
  rw [show (g.NewNode extra h).2.1.readNodes (g.NewNode extra h).2.2 =
      g.readNodes h ++ [(g.NewNode extra h).1] from NewNode_toList extra g h hg]
  rfl

/-! ## Records whose removals dropped no edge -/

theorem connectedNotDisconnected_connected_cons (e : Edge) (rest : List Event) :
    connectedNotDisconnected (Event.connected e :: rest) =
      if decide (Event.disconnected e ∈ rest) then connectedNotDisconnected rest
      else e :: connectedNotDisconnected rest := rfl

theorem connectedNotDisconnected_append_connected (evs : List Event) (e : Edge) :
    connectedNotDisconnected (evs ++ [Event.connected e]) =
      connectedNotDisconnected evs ++ [e] := by
  induction evs with
  | nil => simp [connectedNotDisconnected]
  | cons ev rest ih =>
    cases ev with
    | connected e0 =>
      rw [List.cons_append, connectedNotDisconnected_connected_cons,
        connectedNotDisconnected_connected_cons, ih]
      by_cases h : Event.disconnected e0 ∈ rest
      · simp [h]
      · simp [h]
    | produced n => exact ih
    | removed n => exact ih
    | disconnected e0 => exact ih

theorem connectedNotDisconnected_append_disconnected (evs : List Event) (e : Edge) :
    connectedNotDisconnected (evs ++ [Event.disconnected e]) =
      (connectedNotDisconnected evs).filter (fun e2 => !(Event.disconnected e).drops e2) := by
  induction evs with
  | nil => rfl
  | cons ev rest ih =>
    cases ev with
    | connected e0 =>
      rw [List.cons_append, connectedNotDisconnected_connected_cons,
        connectedNotDisconnected_connected_cons, ih]
      by_cases h : Event.disconnected e0 ∈ rest
      · simp [h]
      · by_cases h2 : e = e0
        · simp [h, h2, drops_disconnected, List.filter_cons]
        · have h3 : e0 ≠ e := fun h4 => h2 h4.symm
          simp [h, h2, h3, drops_disconnected, List.filter_cons]
    | produced n => exact ih
    | removed n => exact ih
    | disconnected e0 => exact ih

theorem connectedNotDisconnected_append_produced (evs : List Event) (n : Node) :
    connectedNotDisconnected (evs ++ [Event.produced n]) = connectedNotDisconnected evs := by
  induction evs with
  | nil => rfl
  | cons ev rest ih =>
    cases ev with
    | connected e0 =>
      rw [List.cons_append, connectedNotDisconnected_connected_cons,
        connectedNotDisconnected_connected_cons, ih]
      simp
    | produced n => exact ih
    | removed n => exact ih
    | disconnected e0 => exact ih

theorem connectedNotDisconnected_append_removed (evs : List Event) (n : Node) :
    connectedNotDisconnected (evs ++ [Event.removed n]) = connectedNotDisconnected evs := by
  induction evs with
  | nil => rfl
  | cons ev rest ih =>
    cases ev with
    | connected e0 =>
      rw [List.cons_append, connectedNotDisconnected_connected_cons,
        connectedNotDisconnected_connected_cons, ih]
      simp
    | produced n => exact ih
    | removed n => exact ih
    | disconnected e0 => exact ih

theorem removalsUnconnectedFrom_append (evs : List Event) (ev : Event) :
    ∀ before : List Event,
      removalsUnconnectedFrom before (evs ++ [ev]) =
        (removalsUnconnectedFrom before evs && ev.removesUnconnected (before ++ evs)) := by
  induction evs with
  | nil =>
    intro before
    simp [removalsUnconnectedFrom]
  | cons e0 rest ih =>
    intro before
    show (e0.removesUnconnected before &&
        removalsUnconnectedFrom (before ++ [e0]) (rest ++ [ev])) = _
    rw [ih (before ++ [e0]), List.append_assoc]
    show _ = ((e0.removesUnconnected before &&
        removalsUnconnectedFrom (before ++ [e0]) rest) && _)
    simp [Bool.and_assoc]

theorem removalsUnconnected_append (evs : List Event) (ev : Event) :
    removalsUnconnected (evs ++ [ev]) =
      (removalsUnconnected evs && ev.removesUnconnected evs) := by
  unfold removalsUnconnected
  rw [removalsUnconnectedFrom_append evs ev []]
  rfl

/-- In a record whose removals took unconnected nodes only, the survivors are
the pairs connected and not disconnected since. -/
theorem survivors_of_removalsUnconnected (evs : List Event) :
    removalsUnconnected evs = true → survivors evs = connectedNotDisconnected evs := by
  induction evs using List.reverseRecOn with
  | nil => exact fun _ => rfl
  | append_singleton l ev ih =>
    intro h
    rw [removalsUnconnected_append, Bool.and_eq_true] at h
    have hl := ih h.1
    cases ev with
    | connected e =>
      rw [survivors_append_connected, connectedNotDisconnected_append_connected, hl]
    | produced n =>
      rw [survivors_append_produced, connectedNotDisconnected_append_produced, hl]
    | disconnected e =>
      rw [survivors_append_drop _ _ (fun e2 h2 => by cases h2),
        connectedNotDisconnected_append_disconnected, hl]
    | removed n =>
      rw [survivors_append_drop _ _ (fun e2 h2 => by cases h2),
        connectedNotDisconnected_append_removed, hl, List.filter_eq_self]
      intro e he
      have hall : (connectedNotDisconnected l).all (fun e => !e.incident n) = true := h.2
      rw [List.all_eq_true] at hall
      exact hall e he

/-! ## Writes through a slice the caller holds -/

theorem Slice.toList_store_same {h : Heap} {t : Slice} (ht : t.Valid h) (idx : Nat)
    (x : Node) : t.toList (Heap.store h t.array idx x) = (t.toList h).set idx x := by
  rcases ht.2 with h0 | ⟨es, hes, _⟩
  · rw [Slice.toList_of_len_zero _ t (ht.len_zero_of_cap_zero h0),
      Slice.toList_of_len_zero _ t (ht.len_zero_of_cap_zero h0)]
    rfl
  · simp only [Slice.toList]
    rw [Heap.elems_of_getElem? (Heap.getElem?_store_self hes idx x),
      Heap.elems_of_getElem? hes, List.set_take]

theorem Slice.toList_store_ne (h : Heap) (t : Slice) (a idx : Nat) (x : Node)
    (hne : a ≠ t.array) : t.toList (Heap.store h a idx x) = t.toList h := by
  simp only [Slice.toList, Heap.elems]
  rw [Heap.getElem?_store_ne h a idx x t.array hne]

/-- What `append(s, x)` does to the elements another valid header `t` reads:
if the append writes in place into the array of `t`, cell `s.len` of `t` is
replaced (when `t` is that long); otherwise nothing changes. -/
theorem append_toList_other (extra : Nat → Nat) (h : Heap) (s : Slice) (x : Node)
    (t : Slice) (ht : t.Valid h) :
    (s.len < s.cap ∧ t.array = s.array →
      t.toList (append extra h s x).2 = (t.toList h).set s.len x) ∧
    (¬(s.len < s.cap ∧ t.array = s.array) →
      t.toList (append extra h s x).2 = t.toList h) := by
  constructor
  · rintro ⟨hlt, harr⟩
    have : (append extra h s x).2 = Heap.store h s.array s.len x := by
      simp [append, hlt]
    rw [this, ← harr]
    exact Slice.toList_store_same ht s.len x
  · intro hno
    by_cases hlt : s.len < s.cap
    · have : (append extra h s x).2 = Heap.store h s.array s.len x := by
        simp [append, hlt]
      rw [this]
      exact Slice.toList_store_ne h t s.array s.len x (fun heq => hno ⟨hlt, heq.symm⟩)
    · have : (append extra h s x).2 =
          (h.alloc (Obj.nodeArray (s.toList h ++ [x] ++ List.replicate (extra s.cap) none))).2 := by
        simp [append, hlt]
      rw [this]
      exact Slice.toList_alloc ht _

/-! ## The tested `Remove` -/

theorem Graph.RemoveTested_not_contained (g : Graph) (n : Node)
    (h : g.Contains n = false) :
    g.RemoveTested n = (some RemoveError.NodeNotFound, g) := by
  simp [Graph.RemoveTested, h]

theorem Graph.RemoveTested_free (g : Graph) (n : Node)
    (h : g.Contains n = true) (hc : g.connected n = false) :
    g.RemoveTested n = (none, Graph.mk g.id g.lastNodeID
      (g.nodes.filter (fun m => decide (m ≠ n)))
      (g.edges.filter (fun e => !e.incident n))) := by
  simp [Graph.RemoveTested, h, hc]

/-- Wherever the tested `Remove` does not refuse a connected node it is the
`Remove` of the specification: same success or failure, same state after. -/
theorem Graph.RemoveTested_eq_Remove (g : Graph) (n : Node)
    (h : g.Contains n = false ∨ g.connected n = false) :
    ((g.RemoveTested n).1 = none ↔ (g.Remove n).1 = none) ∧
    (g.RemoveTested n).2 = (g.Remove n).2 := by
  cases hc : g.Contains n with
  | false =>
    rw [Graph.RemoveTested_not_contained g n hc, Graph.Remove_not_contained g n hc]
    simp
  | true =>
    have hfree : g.connected n = false := by
      rcases h with h | h
      · rw [hc] at h
        cases h
      · exact h
    rw [Graph.RemoveTested_free g n hc hfree, Graph.Remove_contained g n hc]
    simp

/-- C1: nodes returned by `NewNode` of two different graphs are never equal
under `==`, whatever calls were made before, in particular when both are the
first node of their graph. -/
theorem nodes_of_different_graphs_distinct (extra : Nat → Nat) (calls : List Call)
    (i j : Nat) (gi gj : graph)
    (hi : (World.run extra calls).graphs[i]? = some gi)
    (hj : (World.run extra calls).graphs[j]? = some gj) (hij : i ≠ j) :
    nodeEq (gi.NewNode extra (World.run extra calls).heap).1
      (gj.NewNode extra (gi.NewNode extra (World.run extra calls).heap).2.2).1 = false := by
  have hne := ((World.run_inv extra calls).sep i j gi gj hi hj hij).1
  show node.eq _ _ = false
  simp [node.eq, hne]

/-- Witness of C1: two fresh graphs; both nodes are the first of their graph
and carry id 1. -/
theorem nodes_of_different_graphs_distinct_witness :
    (World.run doubling [Call.New, Call.New]).graphs[0]? = some ⟨0, 0, Slice.nil⟩ ∧
    (World.run doubling [Call.New, Call.New]).graphs[1]? = some ⟨1, 0, Slice.nil⟩ ∧
    (graph.NewNode doubling ⟨0, 0, Slice.nil⟩
      (World.run doubling [Call.New, Call.New]).heap).1 = some ⟨0, 1⟩ ∧
    (graph.NewNode doubling ⟨1, 0, Slice.nil⟩
      (graph.NewNode doubling ⟨0, 0, Slice.nil⟩
        (World.run doubling [Call.New, Call.New]).heap).2.2).1 = some ⟨1, 1⟩ ∧
    nodeEq (graph.NewNode doubling ⟨0, 0, Slice.nil⟩
        (World.run doubling [Call.New, Call.New]).heap).1
      (graph.NewNode doubling ⟨1, 0, Slice.nil⟩
        (graph.NewNode doubling ⟨0, 0, Slice.nil⟩
          (World.run doubling [Call.New, Call.New]).heap).2.2).1 = false :=
  ⟨by decide, by decide, by decide, by decide,
    nodes_of_different_graphs_distinct doubling [Call.New, Call.New] 0 1 _ _
      (by decide) (by decide) (by decide)⟩

/-- C2: in every graph reached from `New()` by `NewNode` calls (other graphs
may be in use as well), the node `n` returned by `g.NewNode()` occurs exactly
once in `g.Nodes()`: one element is `==` to it and no second one.  The new
length of the slice is an `int`, so the old length is below `maxInt`. -/
theorem new_node_occurs_exactly_once (extra : Nat → Nat) (calls : List Call)
    (i : Nat) (g : graph)
    (hg : (World.run extra calls).graphs[i]? = some g)
    (hlen : g.nodes.len < maxInt) :
    List.countP (fun m => nodeEq m (g.NewNode extra (World.run extra calls).heap).1)
      ((g.NewNode extra (World.run extra calls).heap).2.1.readNodes
        (g.NewNode extra (World.run extra calls).heap).2.2) = 1 := by
  have hw := World.run_inv extra calls
  rw [readNodes_after_NewNode extra calls i g hg, readNodes_eq_returned extra calls i g hg,
    hw.ids i g hg, NewNode_eq_nodeAt extra g _ (hw.wf i g hg), List.countP_append]
  have h0 : List.countP (fun m => nodeEq m (nodeAt g.id g.nodes.len))
      (List.map (nodeAt g.id) (List.range g.nodes.len)) = 0 := by
    rw [List.countP_eq_zero]
    intro a ha
    obtain ⟨k, hk, rfl⟩ := List.mem_map.mp ha
    have hk2 : k < g.nodes.len := List.mem_range.mp hk
    have hne := nodeAt_ne_of_lt g.id k g.nodes.len hk2 hlen
    simpa [nodeEq_eq_decide] using hne
  rw [h0]
  simp [nodeEq_eq_decide]

/-- Witness of C2: the second node of a graph created after another graph. -/
theorem new_node_occurs_exactly_once_witness :
    (World.run doubling [Call.New, Call.New, Call.NewNode 1]).graphs[1]? =
      some ⟨1, 1, ⟨2, 1, 1⟩⟩ ∧
    (⟨2, 1, 1⟩ : Slice).len < maxInt ∧
    List.countP
      (fun m => nodeEq m (graph.NewNode doubling ⟨1, 1, ⟨2, 1, 1⟩⟩
        (World.run doubling [Call.New, Call.New, Call.NewNode 1]).heap).1)
      ((graph.NewNode doubling ⟨1, 1, ⟨2, 1, 1⟩⟩
          (World.run doubling [Call.New, Call.New, Call.NewNode 1]).heap).2.1.readNodes
        (graph.NewNode doubling ⟨1, 1, ⟨2, 1, 1⟩⟩
          (World.run doubling [Call.New, Call.New, Call.NewNode 1]).heap).2.2) = 1 :=
  ⟨by decide, by decide,
    new_node_occurs_exactly_once doubling [Call.New, Call.New, Call.NewNode 1] 1 _
      (by decide) (by decide)⟩

/-- C3: after `New()` and any calls of which exactly `k` are `NewNode` on the
new graph, `Nodes()` of that graph has length `k`, `k` nodes were returned,
and each returned node is found by `==` in `Nodes()`. -/
theorem nodes_holds_all_created (extra : Nat → Nat) (pre rest : List Call) :
    ((World.run extra (pre ++ Call.New :: rest)).nodesOf
        (World.run extra pre).graphs.length).length =
      rest.count (Call.NewNode (World.run extra pre).graphs.length) ∧
    ((World.run extra (pre ++ Call.New :: rest)).returned
        (World.run extra pre).graphs.length).length =
      rest.count (Call.NewNode (World.run extra pre).graphs.length) ∧
    ∀ n ∈ (World.run extra (pre ++ Call.New :: rest)).returned
        (World.run extra pre).graphs.length,
      ((World.run extra (pre ++ Call.New :: rest)).nodesOf
        (World.run extra pre).graphs.length).any (fun m => nodeEq n m) = true := by
  refine ⟨?_, World.returned_length_after_New extra pre rest, ?_⟩
  · rw [World.nodesOf_eq_returned]
    exact World.returned_length_after_New extra pre rest
  · intro n hn
    rw [World.nodesOf_eq_returned, List.any_eq_true]
    exact ⟨n, hn, (nodeEq_iff n n).mpr rfl⟩

/-- The scenario of `TestGraphNodes`: three `NewNode` calls on a new graph;
`Nodes()` then holds the three returned nodes, with ids 1, 2 and 3. -/
theorem test_graph_nodes :
    (World.run doubling [Call.New, Call.NewNode 0, Call.NewNode 0, Call.NewNode 0]).nodesOf 0 =
      [some ⟨0, 1⟩, some ⟨0, 2⟩, some ⟨0, 3⟩] ∧
    (World.run doubling [Call.New, Call.NewNode 0, Call.NewNode 0, Call.NewNode 0]).returned 0 =
      [some ⟨0, 1⟩, some ⟨0, 2⟩, some ⟨0, 3⟩] := by
  decide

/-- C4: `NewNode` appends: `Nodes()` after the call is `Nodes()` before the
call followed by the returned node; hence `Nodes()` of a graph is the list of
the nodes it returned, in the order of the calls. -/
theorem nodes_in_insertion_order (extra : Nat → Nat) (calls : List Call)
    (i : Nat) (g : graph)
    (hg : (World.run extra calls).graphs[i]? = some g) :
    (g.NewNode extra (World.run extra calls).heap).2.1.readNodes
        (g.NewNode extra (World.run extra calls).heap).2.2 =
      g.readNodes (World.run extra calls).heap ++
        [(g.NewNode extra (World.run extra calls).heap).1] ∧
    g.readNodes (World.run extra calls).heap = (World.run extra calls).returned i :=
  ⟨readNodes_after_NewNode extra calls i g hg, readNodes_eq_returned extra calls i g hg⟩

/-- Witness of C4: a graph with two nodes, about to get its third; the slice
is full, so the third node moves the elements to a new array. -/
theorem nodes_in_insertion_order_witness :
    (World.run doubling [Call.New, Call.NewNode 0, Call.NewNode 0]).graphs[0]? =
      some ⟨0, 2, ⟨2, 2, 2⟩⟩ ∧
    ((graph.NewNode doubling ⟨0, 2, ⟨2, 2, 2⟩⟩
          (World.run doubling [Call.New, Call.NewNode 0, Call.NewNode 0]).heap).2.1.readNodes
        (graph.NewNode doubling ⟨0, 2, ⟨2, 2, 2⟩⟩
          (World.run doubling [Call.New, Call.NewNode 0, Call.NewNode 0]).heap).2.2 =
      graph.readNodes ⟨0, 2, ⟨2, 2, 2⟩⟩
          (World.run doubling [Call.New, Call.NewNode 0, Call.NewNode 0]).heap ++
        [(graph.NewNode doubling ⟨0, 2, ⟨2, 2, 2⟩⟩
          (World.run doubling [Call.New, Call.NewNode 0, Call.NewNode 0]).heap).1] ∧
    graph.readNodes ⟨0, 2, ⟨2, 2, 2⟩⟩
        (World.run doubling [Call.New, Call.NewNode 0, Call.NewNode 0]).heap =
      (World.run doubling [Call.New, Call.NewNode 0, Call.NewNode 0]).returned 0) :=
  ⟨by decide,
    nodes_in_insertion_order doubling [Call.New, Call.NewNode 0, Call.NewNode 0] 0 _
      (by decide)⟩

/-- C5: ids are handed out sequentially from 1.  On a graph created by
`New()`, the `k`-th call of `NewNode` (whatever other calls come in between)
returns the node with id `k` and with the token `New` gave the graph.  Here
`k ≤ maxInt`: the graph then holds `k` nodes and a slice length is an `int`. -/
theorem node_ids_sequential (extra : Nat → Nat) (pre rest : List Call) (k : Nat)
    (hk : rest.count (Call.NewNode (World.run extra pre).graphs.length) + 1 = k)
    (hmax : k ≤ maxInt) :
    ∃ g, (World.run extra (pre ++ Call.New :: rest)).graphs[
        (World.run extra pre).graphs.length]? = some g ∧
      g.id = (New (World.run extra pre).heap).1.id ∧
      (g.NewNode extra (World.run extra (pre ++ Call.New :: rest)).heap).1 =
        some { graphID := (New (World.run extra pre).heap).1.id, nodeID := (k : Int) } := by
  obtain ⟨g, hg, hid⟩ := World.graph_after_New extra pre rest
  refine ⟨g, hg, hid, ?_⟩
  have hlen := World.len_eq_returned extra _ _ g hg
  rw [World.returned_length_after_New] at hlen
  rw [NewNode_eq_nodeAt extra g _ ((World.run_inv extra _).wf _ g hg), hid]
  have hw := wrapInt_of_le_maxInt (g.nodes.len + 1) (by omega)
  push_cast at hw
  unfold nodeAt
  rw [hw, ← hk, hlen]
  push_cast
  rfl

/-- Witness of C5: the third node of the second graph of a program. -/
theorem node_ids_sequential_witness :
    List.count (Call.NewNode (World.run doubling [Call.New]).graphs.length)
      [Call.NewNode 1, Call.NewNode 0, Call.NewNode 1] + 1 = 3 ∧
    3 ≤ maxInt ∧
    ∃ g, (World.run doubling ([Call.New] ++
        Call.New :: [Call.NewNode 1, Call.NewNode 0, Call.NewNode 1])).graphs[
        (World.run doubling [Call.New]).graphs.length]? = some g ∧
      g.id = (New (World.run doubling [Call.New]).heap).1.id ∧
      (g.NewNode doubling (World.run doubling ([Call.New] ++
        Call.New :: [Call.NewNode 1, Call.NewNode 0, Call.NewNode 1])).heap).1 =
        some { graphID := (New (World.run doubling [Call.New]).heap).1.id,
               nodeID := ((3 : Nat) : Int) } :=
  ⟨by decide, by decide,
    node_ids_sequential doubling [Call.New] [Call.NewNode 1, Call.NewNode 0, Call.NewNode 1] 3
      (by decide) (by decide)⟩

/-- C6: ids are unique and increasing inside one graph, for fewer than `2^63`
calls (the counter is a 64-bit `int` and wraps).  In a reachable graph with
fewer than `maxInt` nodes, after one more `NewNode` the ids in `Nodes()` are
strictly increasing in list order, no two stored nodes share an id, and the
id just returned is greater than every id the graph returned before. -/
theorem node_ids_increasing (extra : Nat → Nat) (calls : List Call)
    (i : Nat) (g : graph)
    (hg : (World.run extra calls).graphs[i]? = some g)
    (hlen : g.nodes.len < maxInt) :
    List.Pairwise idLess
      ((g.NewNode extra (World.run extra calls).heap).2.1.readNodes
        (g.NewNode extra (World.run extra calls).heap).2.2) ∧
    (List.map (Option.map node.nodeID)
      ((g.NewNode extra (World.run extra calls).heap).2.1.readNodes
        (g.NewNode extra (World.run extra calls).heap).2.2)).Nodup ∧
    ∀ m ∈ (World.run extra calls).returned i,
      idLess m (g.NewNode extra (World.run extra calls).heap).1 := by
  have hw := World.run_inv extra calls
  have hall : (g.NewNode extra (World.run extra calls).heap).2.1.readNodes
      (g.NewNode extra (World.run extra calls).heap).2.2 =
      List.map (nodeAt g.id) (List.range (g.nodes.len + 1)) := by
    rw [readNodes_after_NewNode extra calls i g hg, readNodes_eq_returned extra calls i g hg,
      hw.ids i g hg, NewNode_eq_nodeAt extra g _ (hw.wf i g hg), List.range_succ,
      List.map_append]
    rfl
  refine ⟨?_, ?_, ?_⟩
  · rw [hall]
    exact pairwise_idLess_nodeAt g.id _ (by omega)
  · rw [hall]
    exact nodup_ids_nodeAt g.id _ (by omega)
  · intro m hm
    rw [hw.ids i g hg] at hm
    obtain ⟨k, hk, rfl⟩ := List.mem_map.mp hm
    rw [NewNode_eq_nodeAt extra g _ (hw.wf i g hg)]
    exact idLess_nodeAt g.id k g.nodes.len (List.mem_range.mp hk) hlen

/-- Witness of C6: a graph with two nodes gets its third. -/
theorem node_ids_increasing_witness :
    (World.run doubling [Call.New, Call.NewNode 0, Call.NewNode 0]).graphs[0]? =
      some ⟨0, 2, ⟨2, 2, 2⟩⟩ ∧
    (⟨2, 2, 2⟩ : Slice).len < maxInt ∧
    (List.Pairwise idLess
      ((graph.NewNode doubling ⟨0, 2, ⟨2, 2, 2⟩⟩
          (World.run doubling [Call.New, Call.NewNode 0, Call.NewNode 0]).heap).2.1.readNodes
        (graph.NewNode doubling ⟨0, 2, ⟨2, 2, 2⟩⟩
          (World.run doubling [Call.New, Call.NewNode 0, Call.NewNode 0]).heap).2.2) ∧
    (List.map (Option.map node.nodeID)
      ((graph.NewNode doubling ⟨0, 2, ⟨2, 2, 2⟩⟩
          (World.run doubling [Call.New, Call.NewNode 0, Call.NewNode 0]).heap).2.1.readNodes
        (graph.NewNode doubling ⟨0, 2, ⟨2, 2, 2⟩⟩
          (World.run doubling [Call.New, Call.NewNode 0, Call.NewNode 0]).heap).2.2)).Nodup ∧
    ∀ m ∈ (World.run doubling [Call.New, Call.NewNode 0, Call.NewNode 0]).returned 0,
      idLess m (graph.NewNode doubling ⟨0, 2, ⟨2, 2, 2⟩⟩
        (World.run doubling [Call.New, Call.NewNode 0, Call.NewNode 0]).heap).1) :=
  ⟨by decide, by decide,
    node_ids_increasing doubling [Call.New, Call.NewNode 0, Call.NewNode 0] 0 _
      (by decide) (by decide)⟩

/-- C7: two `node` values are `==` (and so the same map key) exactly when
their graph tokens are the same address and their ids are equal. -/
theorem node_equality (a b : node) :
    (a.eq b = true ↔ a.graphID = b.graphID ∧ a.nodeID = b.nodeID) ∧
    (nodeEq (some a) (some b) = true ↔ a.graphID = b.graphID ∧ a.nodeID = b.nodeID) ∧
    (nodeEq (some a) (some b) = true ↔ a = b) := by
  have h1 : a.eq b = true ↔ a.graphID = b.graphID ∧ a.nodeID = b.nodeID := by
    simp [node.eq]
  exact ⟨h1, h1, node.eq_iff a b⟩

/-- C8: the graph `New()` returns is empty: `Nodes()` has length 0 and no
element, and the id counter is 0. -/
theorem new_graph_empty (h : Heap) :
    ((New h).1.Nodes (New h).2).1.len = 0 ∧
    (New h).1.readNodes (New h).2 = [] ∧
    (New h).1.lastNodeID = 0 :=
  ⟨rfl, rfl, rfl⟩

/-- C10: `Nodes()` is read-only: it leaves the graph (token, counter, slice
header) and the heap as they are; two consecutive calls return the same slice
with the same elements; a following `NewNode` returns what it would have
returned without the query. -/
theorem nodes_read_only (extra : Nat → Nat) (g : graph) (h : Heap) :
    (g.Nodes h).2.1 = g ∧ (g.Nodes h).2.2 = h ∧
    ((g.Nodes h).2.1.Nodes (g.Nodes h).2.2).1 = (g.Nodes h).1 ∧
    (g.Nodes h).2.1.readNodes (g.Nodes h).2.2 = g.readNodes h ∧
    (g.Nodes h).2.1.NewNode extra (g.Nodes h).2.2 = g.NewNode extra h :=
  ⟨rfl, rfl, rfl, rfl, rfl⟩

/-- C9, as stated, fails: `Nodes()` hands out the graph's own slice.  A graph
has returned the nodes with ids 1 and 2; the caller runs `s := g.Nodes()`
and `s[0] = s[1]`; then `g.Nodes()` reads id 2 twice and the node with id 1
is gone. -/
theorem nodes_snapshot_counterexample :
    (World.run doubling [Call.New, Call.NewNode 0, Call.NewNode 0]).graphs[0]? =
      some ⟨0, 2, ⟨2, 2, 2⟩⟩ ∧
    (World.run doubling [Call.New, Call.NewNode 0, Call.NewNode 0]).returned 0 =
      [some ⟨0, 1⟩, some ⟨0, 2⟩] ∧
    (Slice.assign (World.run doubling [Call.New, Call.NewNode 0, Call.NewNode 0]).heap
        (graph.Nodes ⟨0, 2, ⟨2, 2, 2⟩⟩
          (World.run doubling [Call.New, Call.NewNode 0, Call.NewNode 0]).heap).1
        0 (some ⟨0, 2⟩)).map (fun h2 => graph.readNodes ⟨0, 2, ⟨2, 2, 2⟩⟩ h2) =
      some [some ⟨0, 2⟩, some ⟨0, 2⟩] := by
  decide

/-- C9, amended: `Nodes()` returns the graph's own slice header, a view that
shares the backing array with the graph until the graph moves to a new array.
The caller takes `s := g.Nodes()`, any calls of the library follow, then the
caller writes through `s`.  While the graph still uses the array of `s`,
`s[idx] = x` replaces element `idx` of what `g.Nodes()` shows, and an
`append(s, x)` that fits the capacity writes cell `len(s)` of that array,
which replaces the node the graph has stored there since; when the graph has
moved to another array, or the append allocates, `g.Nodes()` still shows
exactly the nodes the graph created.  The later calls never change the
elements of `s`, and with no call in between the graph does use the array of
`s`. -/
theorem nodes_returns_shared_view (extra : Nat → Nat) (calls rest : List Call)
    (i : Nat) (g g2 : graph)
    (hg : (World.run extra calls).graphs[i]? = some g)
    (hg2 : ((World.run extra calls).exec extra rest).graphs[i]? = some g2) :
    (∀ (idx : Nat) (x : Node) (h2 : Heap),
      Slice.assign ((World.run extra calls).exec extra rest).heap
          (g.Nodes (World.run extra calls).heap).1 idx x = some h2 →
        (g2.nodes.array = (g.Nodes (World.run extra calls).heap).1.array →
          g2.readNodes h2 =
            (((World.run extra calls).exec extra rest).returned i).set idx x) ∧
        (g2.nodes.array ≠ (g.Nodes (World.run extra calls).heap).1.array →
          g2.readNodes h2 = ((World.run extra calls).exec extra rest).returned i)) ∧
    (∀ (x : Node),
      ((g.Nodes (World.run extra calls).heap).1.len <
            (g.Nodes (World.run extra calls).heap).1.cap ∧
          g2.nodes.array = (g.Nodes (World.run extra calls).heap).1.array →
        g2.readNodes (append extra ((World.run extra calls).exec extra rest).heap
            (g.Nodes (World.run extra calls).heap).1 x).2 =
          (((World.run extra calls).exec extra rest).returned i).set
            (g.Nodes (World.run extra calls).heap).1.len x) ∧
      (¬((g.Nodes (World.run extra calls).heap).1.len <
            (g.Nodes (World.run extra calls).heap).1.cap ∧
          g2.nodes.array = (g.Nodes (World.run extra calls).heap).1.array) →
        g2.readNodes (append extra ((World.run extra calls).exec extra rest).heap
            (g.Nodes (World.run extra calls).heap).1 x).2 =
          ((World.run extra calls).exec extra rest).returned i)) ∧
    (g.Nodes (World.run extra calls).heap).1.toList
        ((World.run extra calls).exec extra rest).heap =
      (g.Nodes (World.run extra calls).heap).1.toList (World.run extra calls).heap ∧
    (rest = [] → g2.nodes.array = (g.Nodes (World.run extra calls).heap).1.array) := by
  have hw := World.run_inv extra calls
  have hw2 : ((World.run extra calls).exec extra rest).Inv := hw.inv_exec extra rest
  have hv2 := (hw2.wf i g2 hg2).valid
  have hread := hw2.contents i g2 hg2
  refine ⟨?_, ?_, ?_, ?_⟩
  · intro idx x h2 hassign
    unfold Slice.assign at hassign
    split at hassign
    · have hh2 : h2 = Heap.store ((World.run extra calls).exec extra rest).heap
          g.nodes.array idx x := (Option.some.inj hassign).symm
      rw [← hread, hh2]
      constructor
      · intro harr
        have harr2 : g2.nodes.array = g.nodes.array := harr
        rw [← harr2]
        exact Slice.toList_store_same hv2 idx x
      · intro harr
        have harr2 : g2.nodes.array ≠ g.nodes.array := harr
        exact Slice.toList_store_ne _ g2.nodes _ idx x (fun heq => harr2 heq.symm)
    · cases hassign
  · intro x
    rw [← hread]
    exact append_toList_other extra _ g.nodes x g2.nodes hv2
  · exact World.Safe.safe_exec extra rest g.nodes _ (hw.safe i g hg)
  · intro hrest
    subst hrest
    have : g2 = g := Option.some.inj (hg2.symm.trans hg)
    rw [this]
    rfl

/-- Witness of C9 amended.  A slice taken at length 3, capacity 4, then one
`NewNode` in place: `append(s, x)` by the caller overwrites the fourth node of
the graph.  A slice taken at length 2, capacity 2, then one `NewNode` that
reallocates: `s[0] = x` by the caller is not seen by the graph. -/
theorem nodes_returns_shared_view_witness :
    sharedBefore.graphs[0]? = some ⟨0, 3, ⟨3, 3, 4⟩⟩ ∧
    sharedAfter.graphs[0]? = some ⟨0, 4, ⟨3, 4, 4⟩⟩ ∧
    sharedAfter.returned 0 = [some ⟨0, 1⟩, some ⟨0, 2⟩, some ⟨0, 3⟩, some ⟨0, 4⟩] ∧
    graph.readNodes ⟨0, 4, ⟨3, 4, 4⟩⟩ (append doubling sharedAfter.heap (graph.Nodes ⟨0, 3, ⟨3, 3, 4⟩⟩ sharedBefore.heap).1 none).2 =
      [some ⟨0, 1⟩, some ⟨0, 2⟩, some ⟨0, 3⟩, none] ∧
    movedBefore.graphs[0]? = some ⟨0, 2, ⟨2, 2, 2⟩⟩ ∧
    movedAfter.graphs[0]? = some ⟨0, 3, ⟨3, 3, 4⟩⟩ ∧
    (Slice.assign movedAfter.heap (graph.Nodes ⟨0, 2, ⟨2, 2, 2⟩⟩ movedBefore.heap).1
        0 none).map (fun h2 => graph.readNodes ⟨0, 3, ⟨3, 3, 4⟩⟩ h2) =
      some [some ⟨0, 1⟩, some ⟨0, 2⟩, some ⟨0, 3⟩] ∧
    ((∀ (idx : Nat) (x : Node) (h2 : Heap),
      Slice.assign sharedAfter.heap (graph.Nodes ⟨0, 3, ⟨3, 3, 4⟩⟩ sharedBefore.heap).1 idx x = some h2 →
        ((⟨3, 4, 4⟩ : Slice).array = (graph.Nodes ⟨0, 3, ⟨3, 3, 4⟩⟩ sharedBefore.heap).1.array →
          graph.readNodes ⟨0, 4, ⟨3, 4, 4⟩⟩ h2 = (sharedAfter.returned 0).set idx x) ∧
        ((⟨3, 4, 4⟩ : Slice).array ≠ (graph.Nodes ⟨0, 3, ⟨3, 3, 4⟩⟩ sharedBefore.heap).1.array →
          graph.readNodes ⟨0, 4, ⟨3, 4, 4⟩⟩ h2 = sharedAfter.returned 0)) ∧
    (∀ (x : Node),
      ((graph.Nodes ⟨0, 3, ⟨3, 3, 4⟩⟩ sharedBefore.heap).1.len < (graph.Nodes ⟨0, 3, ⟨3, 3, 4⟩⟩ sharedBefore.heap).1.cap ∧ (⟨3, 4, 4⟩ : Slice).array = (graph.Nodes ⟨0, 3, ⟨3, 3, 4⟩⟩ sharedBefore.heap).1.array →
        graph.readNodes ⟨0, 4, ⟨3, 4, 4⟩⟩ (append doubling sharedAfter.heap (graph.Nodes ⟨0, 3, ⟨3, 3, 4⟩⟩ sharedBefore.heap).1 x).2 =
          (sharedAfter.returned 0).set (graph.Nodes ⟨0, 3, ⟨3, 3, 4⟩⟩ sharedBefore.heap).1.len x) ∧
      (¬((graph.Nodes ⟨0, 3, ⟨3, 3, 4⟩⟩ sharedBefore.heap).1.len < (graph.Nodes ⟨0, 3, ⟨3, 3, 4⟩⟩ sharedBefore.heap).1.cap ∧ (⟨3, 4, 4⟩ : Slice).array = (graph.Nodes ⟨0, 3, ⟨3, 3, 4⟩⟩ sharedBefore.heap).1.array) →
        graph.readNodes ⟨0, 4, ⟨3, 4, 4⟩⟩ (append doubling sharedAfter.heap (graph.Nodes ⟨0, 3, ⟨3, 3, 4⟩⟩ sharedBefore.heap).1 x).2 = sharedAfter.returned 0)) ∧
    (graph.Nodes ⟨0, 3, ⟨3, 3, 4⟩⟩ sharedBefore.heap).1.toList sharedAfter.heap = (graph.Nodes ⟨0, 3, ⟨3, 3, 4⟩⟩ sharedBefore.heap).1.toList sharedBefore.heap ∧
    ([Call.NewNode 0] = [] → (⟨3, 4, 4⟩ : Slice).array = (graph.Nodes ⟨0, 3, ⟨3, 3, 4⟩⟩ sharedBefore.heap).1.array)) :=
  ⟨by decide, by decide, by decide, by decide, by decide, by decide, by decide,
    nodes_returns_shared_view doubling
      [Call.New, Call.NewNode 0, Call.NewNode 0, Call.NewNode 0] [Call.NewNode 0] 0
      ⟨0, 3, ⟨3, 3, 4⟩⟩ ⟨0, 4, ⟨3, 4, 4⟩⟩ (by decide) (by decide)⟩

/-- C11: in every reachable state, `Contains(node)` of a graph is true exactly
when the node was produced by `NewNode` of this graph and not removed since;
so it is true only for nodes this graph produced, false for every node
another graph produced, and false for a node just removed. -/
theorem contains_iff_produced_not_removed (actions : List Action) (i : Nat) (t : Tracked)
    (hi : (System.run actions).graphs[i]? = some t) :
    (∀ n : Node, t.graph.Contains n = producedNotRemoved t.events n) ∧
    (∀ n : Node, t.graph.Contains n = true → producedBy t.events n) ∧
    (∀ (j : Nat) (tj : Tracked) (n : Node), (System.run actions).graphs[j]? = some tj →
      j ≠ i → producedBy tj.events n → t.graph.Contains n = false) ∧
    (∀ n : Node, (t.graph.Remove n).2.Contains n = false) := by
  have hs := System.inv_run actions
  have hgood := hs.good i t hi
  refine ⟨hgood.live, ?_, ?_, ?_⟩
  · intro n hn
    rw [hgood.live n] at hn
    exact produced_of_producedNotRemoved t.events n hn
  · intro j tj n hj hji hn
    exact System.foreign_not_contained actions i j t tj hi hj hji n hn
  · intro n
    rcases Graph.Remove_cases t.graph n with ⟨_, heq⟩ | ⟨hc, heq⟩
    · rw [heq, Graph.contains_false_iff]
      intro hmem
      have := (List.mem_filter.mp hmem).2
      simp at this
    · rw [heq]
      exact hc

/-- Witness of C11: the scenario of `TestGraphsCheckWetherTheyContainNodes`;
`g1` contains `n1a`, not `n2`, not `n1b`. -/
theorem contains_iff_produced_not_removed_witness :
    (System.run testContainsSetup).graphs[0]? =
      some testContainsState ∧
    testContainsState.graph.Contains (some ⟨0, 1⟩) = true ∧
    testContainsState.graph.Contains (some ⟨1, 1⟩) = false ∧
    testContainsState.graph.Contains (some ⟨0, 2⟩) = false ∧
    ((∀ n : Node, testContainsState.graph.Contains n =
        producedNotRemoved testContainsState.events n) ∧
    (∀ n : Node, testContainsState.graph.Contains n = true →
        producedBy testContainsState.events n) ∧
    (∀ (j : Nat) (tj : Tracked) (n : Node),
      (System.run testContainsSetup).graphs[j]? = some tj →
      j ≠ 0 → producedBy tj.events n →
        testContainsState.graph.Contains n = false) ∧
    (∀ n : Node,
      (testContainsState.graph.Remove n).2.Contains n = false)) :=
  ⟨by decide, by decide, by decide, by decide,
    contains_iff_produced_not_removed testContainsSetup 0 _ (by decide)⟩

/-- C12: if `g.Remove(n)` succeeds then afterwards `Contains(n)` is false, `n`
is absent from `Nodes()`, every edge that had `n` as origin or destination is
absent from `Edges()`, and every other node and every edge not incident to
`n` is still present. -/
theorem remove_removes_node_and_incident_edges (g : Graph) (n : Node)
    (h : (g.Remove n).1 = none) :
    (g.Remove n).2.Contains n = false ∧
    n ∉ (g.Remove n).2.Nodes ∧
    (∀ e ∈ g.Edges, e.incident n = true → e ∉ (g.Remove n).2.Edges) ∧
    (∀ m ∈ g.Nodes, m ≠ n →
      m ∈ (g.Remove n).2.Nodes ∧ (g.Remove n).2.Contains m = true) ∧
    (∀ e ∈ g.Edges, e.incident n = false → e ∈ (g.Remove n).2.Edges) := by
  rcases Graph.Remove_cases g n with ⟨_, heq⟩ | ⟨_, heq⟩
  · have hn : n ∉ (g.Remove n).2.Nodes := by
      rw [heq]
      intro hmem
      have := (List.mem_filter.mp hmem).2
      simp at this
    refine ⟨(Graph.contains_false_iff _ n).mpr hn, hn, ?_, ?_, ?_⟩
    · intro e _ hinc
      rw [heq]
      intro hmem
      have := (List.mem_filter.mp hmem).2
      simp [hinc] at this
    · intro m hm hmn
      have hmem : m ∈ (g.Remove n).2.Nodes := by
        rw [heq]
        exact List.mem_filter.mpr ⟨hm, by simpa using hmn⟩
      exact ⟨hmem, (Graph.contains_iff _ m).mpr hmem⟩
    · intro e he hinc
      rw [heq]
      exact List.mem_filter.mpr ⟨he, by simp [hinc]⟩
  · rw [heq] at h
    cases h

/-- Witness of C12: `g1` of `TestRemoveNodes` and its node `ne1`, the origin
of the one edge. -/
theorem remove_removes_node_and_incident_edges_witness :
    (testRemoveNodesState.graph.Remove (some ⟨0, 3⟩)).1 = none ∧
    ((testRemoveNodesState.graph.Remove
        (some ⟨0, 3⟩)).2.Contains (some ⟨0, 3⟩) = false ∧
    some ⟨0, 3⟩ ∉ (testRemoveNodesState.graph.Remove
        (some ⟨0, 3⟩)).2.Nodes ∧
    (∀ e ∈ testRemoveNodesState.graph.Edges,
      e.incident (some ⟨0, 3⟩) = true →
        e ∉ (testRemoveNodesState.graph.Remove
          (some ⟨0, 3⟩)).2.Edges) ∧
    (∀ m ∈ testRemoveNodesState.graph.Nodes, m ≠ some ⟨0, 3⟩ →
      m ∈ (testRemoveNodesState.graph.Remove
          (some ⟨0, 3⟩)).2.Nodes ∧
      (testRemoveNodesState.graph.Remove
          (some ⟨0, 3⟩)).2.Contains m = true) ∧
    (∀ e ∈ testRemoveNodesState.graph.Edges,
      e.incident (some ⟨0, 3⟩) = false →
        e ∈ (testRemoveNodesState.graph.Remove
          (some ⟨0, 3⟩)).2.Edges)) :=
  ⟨by decide,
    remove_removes_node_and_incident_edges _ (some ⟨0, 3⟩) (by decide)⟩

/-- C13: `Remove(n)` fails with `NodeNotFound` and leaves the graph unchanged
for every node the graph does not currently contain, in particular for a node
another graph produced, for a node whose removal was just carried out, and
for every node not produced-and-not-removed; it succeeds, and leaves the edges
alone, for a contained node with no edges. -/
theorem remove_not_contained_fails (actions : List Action) (i : Nat) (t : Tracked)
    (hi : (System.run actions).graphs[i]? = some t) :
    (∀ n : Node, t.graph.Contains n = false →
      t.graph.Remove n = (some Error.NodeNotFound, t.graph) ∧ t.apply (Op.Remove n) = t) ∧
    (∀ (j : Nat) (tj : Tracked) (n : Node), (System.run actions).graphs[j]? = some tj →
      j ≠ i → producedBy tj.events n →
        t.graph.Remove n = (some Error.NodeNotFound, t.graph)) ∧
    (∀ n : Node, (t.graph.Remove n).2.Remove n =
      (some Error.NodeNotFound, (t.graph.Remove n).2)) ∧
    (∀ n : Node, producedNotRemoved t.events n = false →
      t.graph.Remove n = (some Error.NodeNotFound, t.graph)) ∧
    (∀ n : Node, t.graph.Contains n = true →
      (∀ e ∈ t.graph.Edges, e.incident n = false) →
        (t.graph.Remove n).1 = none ∧ (t.graph.Remove n).2.Edges = t.graph.Edges) := by
  have hs := System.inv_run actions
  have hgood := hs.good i t hi
  refine ⟨?_, ?_, ?_, ?_, ?_⟩
  · intro n hc
    exact ⟨Graph.Remove_not_contained t.graph n hc, Tracked.apply_Remove_not_contained t n hc⟩
  · intro j tj n hj hji hn
    exact Graph.Remove_not_contained t.graph n
      (System.foreign_not_contained actions i j t tj hi hj hji n hn)
  · intro n
    refine Graph.Remove_not_contained _ n ?_
    rcases Graph.Remove_cases t.graph n with ⟨_, heq⟩ | ⟨hc, heq⟩
    · rw [heq, Graph.contains_false_iff]
      intro hmem
      have := (List.mem_filter.mp hmem).2
      simp at this
    · rw [heq]
      exact hc
  · intro n hn
    exact Graph.Remove_not_contained t.graph n ((hgood.live n).trans hn)
  · intro n hc hfree
    rw [Graph.Remove_contained t.graph n hc]
    refine ⟨rfl, ?_⟩
    show t.graph.edges.filter (fun e => !e.incident n) = t.graph.edges
    rw [List.filter_eq_self]
    intro e he
    rw [hfree e he]
    rfl

/-- Witness of C13: the cases `n1a` (no error), `n1b` and `n2` (error) of
`TestRemoveNodes`. -/
theorem remove_not_contained_fails_witness :
    (System.run testRemoveNodesSetup).graphs[0]? =
      some testRemoveNodesState ∧
    (testRemoveNodesState.graph.Remove (some ⟨0, 1⟩)).1 = none ∧
    (testRemoveNodesState.graph.Remove (some ⟨0, 2⟩)).1 =
      some Error.NodeNotFound ∧
    (testRemoveNodesState.graph.Remove (some ⟨1, 1⟩)).1 =
      some Error.NodeNotFound ∧
    ((∀ n : Node, testRemoveNodesState.graph.Contains n = false →
      testRemoveNodesState.graph.Remove n =
        (some Error.NodeNotFound, testRemoveNodesState.graph) ∧
      testRemoveNodesState.apply (Op.Remove n) =
        testRemoveNodesState) ∧
    (∀ (j : Nat) (tj : Tracked) (n : Node),
      (System.run testRemoveNodesSetup).graphs[j]? = some tj →
      j ≠ 0 → producedBy tj.events n →
        testRemoveNodesState.graph.Remove n =
          (some Error.NodeNotFound, testRemoveNodesState.graph)) ∧
    (∀ n : Node, (testRemoveNodesState.graph.Remove n).2.Remove n =
      (some Error.NodeNotFound,
        (testRemoveNodesState.graph.Remove n).2)) ∧
    (∀ n : Node,
      producedNotRemoved testRemoveNodesState.events n = false →
        testRemoveNodesState.graph.Remove n =
          (some Error.NodeNotFound, testRemoveNodesState.graph)) ∧
    (∀ n : Node, testRemoveNodesState.graph.Contains n = true →
      (∀ e ∈ testRemoveNodesState.graph.Edges, e.incident n = false) →
        (testRemoveNodesState.graph.Remove n).1 = none ∧
        (testRemoveNodesState.graph.Remove n).2.Edges = testRemoveNodesState.graph.Edges)) :=
  ⟨by decide, by decide, by decide, by decide,
    remove_not_contained_fails testRemoveNodesSetup 0 _ (by decide)⟩

/-- Where the prose of the specification and the test part: on the state of
`TestRemoveNodes` the `Remove` of the prose takes `ne1` and drops the edge;
the `Remove` the test requires returns `NodeConnected` and keeps it.  After
`Connect(n1, n2)` and `Remove(n1)` the edge is gone under the first and in
place under the second. -/
theorem remove_prose_and_test_differ :
    testRemoveNodesState = testRemoveNodesTested ∧
    testRemoveNodesState.graph.Edges = [Edge.mk (some ⟨0, 3⟩) (some ⟨0, 4⟩)] ∧
    (testRemoveNodesState.graph.Remove (some ⟨0, 3⟩)).1 = none ∧
    (testRemoveNodesState.graph.Remove (some ⟨0, 3⟩)).2.Edges = [] ∧
    (testRemoveNodesState.graph.RemoveTested (some ⟨0, 3⟩)).1 =
      some RemoveError.NodeConnected ∧
    (testRemoveNodesState.graph.RemoveTested (some ⟨0, 3⟩)).2.Edges =
      [Edge.mk (some ⟨0, 3⟩) (some ⟨0, 4⟩)] ∧
    connectThenRemoveState.graph.Edges = [] ∧
    connectThenRemoveTested.graph.Edges = [Edge.mk (some ⟨0, 1⟩) (some ⟨0, 2⟩)] := by
  decide

/-- C15: on contained nodes `a`, `b` with no edge for the pair, the first
`Connect(a, b)` succeeds, the second fails with `DuplicateEdge` and changes
nothing, and `Edges()` holds exactly one edge from `a` to `b`, after the first
call as after the second. -/
theorem connect_twice_duplicate (g : Graph) (a b : Node)
    (ha : g.Contains a = true) (hb : g.Contains b = true)
    (he : Edge.mk a b ∉ g.Edges) :
    (g.Connect a b).1 = none ∧
    (g.Connect a b).2.Connect a b = (some Error.DuplicateEdge, (g.Connect a b).2) ∧
    (g.Connect a b).2.Edges.count (Edge.mk a b) = 1 ∧
    ((g.Connect a b).2.Connect a b).2.Edges.count (Edge.mk a b) = 1 := by
  have heq := Graph.Connect_fresh g a b ha hb he
  have hcount : (g.Connect a b).2.Edges.count (Edge.mk a b) = 1 := by
    rw [heq]
    show (g.edges ++ [Edge.mk a b]).count (Edge.mk a b) = 1
    have hzero : g.edges.count (Edge.mk a b) = 0 := List.count_eq_zero_of_not_mem he
    rw [List.count_append, hzero]
    simp
  have hdup : (g.Connect a b).2.Connect a b =
      (some Error.DuplicateEdge, (g.Connect a b).2) := by
    refine Graph.Connect_duplicate _ a b ?_ ?_ ?_
    · rw [heq]
      exact ha
    · rw [heq]
      exact hb
    · rw [heq]
      exact List.mem_append_right _ (List.mem_singleton.mpr rfl)
  refine ⟨by rw [heq], hdup, hcount, ?_⟩
  rw [hdup]
  exact hcount

/-- Witness of C15: the two nodes of the case `connects_twice` of
`TestConnect`. -/
theorem connect_twice_duplicate_witness :
    Graph.Contains ⟨0, 2, [some ⟨0, 1⟩, some ⟨0, 2⟩], []⟩ (some ⟨0, 1⟩) = true ∧
    Graph.Contains ⟨0, 2, [some ⟨0, 1⟩, some ⟨0, 2⟩], []⟩ (some ⟨0, 2⟩) = true ∧
    Edge.mk (some ⟨0, 1⟩) (some ⟨0, 2⟩) ∉
      Graph.Edges ⟨0, 2, [some ⟨0, 1⟩, some ⟨0, 2⟩], []⟩ ∧
    ((Graph.Connect ⟨0, 2, [some ⟨0, 1⟩, some ⟨0, 2⟩], []⟩
        (some ⟨0, 1⟩) (some ⟨0, 2⟩)).1 = none ∧
    (Graph.Connect ⟨0, 2, [some ⟨0, 1⟩, some ⟨0, 2⟩], []⟩
        (some ⟨0, 1⟩) (some ⟨0, 2⟩)).2.Connect (some ⟨0, 1⟩) (some ⟨0, 2⟩) =
      (some Error.DuplicateEdge,
        (Graph.Connect ⟨0, 2, [some ⟨0, 1⟩, some ⟨0, 2⟩], []⟩
          (some ⟨0, 1⟩) (some ⟨0, 2⟩)).2) ∧
    (Graph.Connect ⟨0, 2, [some ⟨0, 1⟩, some ⟨0, 2⟩], []⟩
        (some ⟨0, 1⟩) (some ⟨0, 2⟩)).2.Edges.count
      (Edge.mk (some ⟨0, 1⟩) (some ⟨0, 2⟩)) = 1 ∧
    ((Graph.Connect ⟨0, 2, [some ⟨0, 1⟩, some ⟨0, 2⟩], []⟩
        (some ⟨0, 1⟩) (some ⟨0, 2⟩)).2.Connect (some ⟨0, 1⟩) (some ⟨0, 2⟩)).2.Edges.count
      (Edge.mk (some ⟨0, 1⟩) (some ⟨0, 2⟩)) = 1) :=
  ⟨by decide, by decide, by decide,
    connect_twice_duplicate _ (some ⟨0, 1⟩) (some ⟨0, 2⟩) (by decide) (by decide)
      (by decide)⟩

/-- C16: `Connect` and `Disconnect` fail with `NodeNotFound` and change
nothing whenever the origin or the destination is not currently contained,
whatever the other endpoint is: in particular when one endpoint was produced
by another graph, or is not produced-and-not-removed in this graph. -/
theorem connect_disconnect_node_not_found (actions : List Action) (i : Nat) (t : Tracked)
    (hi : (System.run actions).graphs[i]? = some t) :
    (∀ a b : Node, t.graph.Contains a = false ∨ t.graph.Contains b = false →
      t.graph.Connect a b = (some Error.NodeNotFound, t.graph) ∧
      t.graph.Disconnect a b = (some Error.NodeNotFound, t.graph) ∧
      t.apply (Op.Connect a b) = t ∧ t.apply (Op.Disconnect a b) = t) ∧
    (∀ (j : Nat) (tj : Tracked) (n m : Node), (System.run actions).graphs[j]? = some tj →
      j ≠ i → producedBy tj.events n →
        t.graph.Connect n m = (some Error.NodeNotFound, t.graph) ∧
        t.graph.Connect m n = (some Error.NodeNotFound, t.graph) ∧
        t.graph.Disconnect n m = (some Error.NodeNotFound, t.graph) ∧
        t.graph.Disconnect m n = (some Error.NodeNotFound, t.graph)) ∧
    (∀ n m : Node, producedNotRemoved t.events n = false →
        t.graph.Connect n m = (some Error.NodeNotFound, t.graph) ∧
        t.graph.Connect m n = (some Error.NodeNotFound, t.graph) ∧
        t.graph.Disconnect n m = (some Error.NodeNotFound, t.graph) ∧
        t.graph.Disconnect m n = (some Error.NodeNotFound, t.graph)) := by
  have hs := System.inv_run actions
  have hgood := hs.good i t hi
  have key : ∀ n m : Node, t.graph.Contains n = false →
      t.graph.Connect n m = (some Error.NodeNotFound, t.graph) ∧
      t.graph.Connect m n = (some Error.NodeNotFound, t.graph) ∧
      t.graph.Disconnect n m = (some Error.NodeNotFound, t.graph) ∧
      t.graph.Disconnect m n = (some Error.NodeNotFound, t.graph) := by
    intro n m hn
    exact ⟨Graph.Connect_not_contained _ n m (Or.inl hn),
      Graph.Connect_not_contained _ m n (Or.inr hn),
      Graph.Disconnect_not_contained _ n m (Or.inl hn),
      Graph.Disconnect_not_contained _ m n (Or.inr hn)⟩
  refine ⟨?_, ?_, ?_⟩
  · intro a b hab
    exact ⟨Graph.Connect_not_contained _ a b hab, Graph.Disconnect_not_contained _ a b hab,
      Tracked.apply_Connect_error t a b _ (Graph.Connect_not_contained _ a b hab),
      Tracked.apply_Disconnect_error t a b _ (Graph.Disconnect_not_contained _ a b hab)⟩
  · intro j tj n m hj hji hn
    exact key n m (System.foreign_not_contained actions i j t tj hi hj hji n hn)
  · intro n m hn
    exact key n m ((hgood.live n).trans hn)

/-- Witness of C16: the case `origin_not_contained` of `TestConnect` and of
`TestDisconnectEdgeErrors`; the destination (0, 2) is contained, the origin
(0, 1) was removed. -/
theorem connect_disconnect_node_not_found_witness :
    (System.run testOriginNotContainedSetup).graphs[0]? =
      some testOriginNotContainedState ∧
    testOriginNotContainedState.graph.Contains (some ⟨0, 2⟩) = true ∧
    (testOriginNotContainedState.graph.Connect
      (some ⟨0, 1⟩) (some ⟨0, 2⟩)).1 = some Error.NodeNotFound ∧
    (testOriginNotContainedState.graph.Disconnect
      (some ⟨0, 1⟩) (some ⟨0, 2⟩)).1 = some Error.NodeNotFound ∧
    (testOriginNotContainedState.graph.Connect
      (some ⟨0, 2⟩) (some ⟨0, 1⟩)).1 = some Error.NodeNotFound ∧
    ((∀ a b : Node,
      testOriginNotContainedState.graph.Contains a = false ∨
        testOriginNotContainedState.graph.Contains b = false →
      testOriginNotContainedState.graph.Connect a b =
        (some Error.NodeNotFound, testOriginNotContainedState.graph) ∧
      testOriginNotContainedState.graph.Disconnect a b =
        (some Error.NodeNotFound, testOriginNotContainedState.graph) ∧
      testOriginNotContainedState.apply (Op.Connect a b) =
        testOriginNotContainedState ∧
      testOriginNotContainedState.apply (Op.Disconnect a b) =
        testOriginNotContainedState) ∧
    (∀ (j : Nat) (tj : Tracked) (n m : Node),
      (System.run testOriginNotContainedSetup).graphs[j]? = some tj →
      j ≠ 0 → producedBy tj.events n →
        testOriginNotContainedState.graph.Connect n m =
          (some Error.NodeNotFound,
            testOriginNotContainedState.graph) ∧
        testOriginNotContainedState.graph.Connect m n =
          (some Error.NodeNotFound,
            testOriginNotContainedState.graph) ∧
        testOriginNotContainedState.graph.Disconnect n m =
          (some Error.NodeNotFound,
            testOriginNotContainedState.graph) ∧
        testOriginNotContainedState.graph.Disconnect m n =
          (some Error.NodeNotFound,
            testOriginNotContainedState.graph)) ∧
    (∀ n m : Node,
      producedNotRemoved testOriginNotContainedState.events n =
        false →
        testOriginNotContainedState.graph.Connect n m =
          (some Error.NodeNotFound,
            testOriginNotContainedState.graph) ∧
        testOriginNotContainedState.graph.Connect m n =
          (some Error.NodeNotFound,
            testOriginNotContainedState.graph) ∧
        testOriginNotContainedState.graph.Disconnect n m =
          (some Error.NodeNotFound,
            testOriginNotContainedState.graph) ∧
        testOriginNotContainedState.graph.Disconnect m n =
          (some Error.NodeNotFound,
            testOriginNotContainedState.graph))) :=
  ⟨by decide, by decide, by decide, by decide, by decide,
    connect_disconnect_node_not_found testOriginNotContainedSetup 0 _ (by decide)⟩

/-- C17: on contained nodes `a`, `b`, `Disconnect(a, b)` fails with
`EdgeNotFound` and changes nothing when the graph holds no edge for the
ordered pair, in particular when the pair was never connected; when the edge
exists, `Disconnect` succeeds, removes exactly that edge and leaves the nodes
alone, and a second `Disconnect(a, b)` fails with `EdgeNotFound`. -/
theorem disconnect_edge_not_found (actions : List Action) (i : Nat) (t : Tracked)
    (hi : (System.run actions).graphs[i]? = some t) (a b : Node)
    (ha : t.graph.Contains a = true) (hb : t.graph.Contains b = true) :
    (Edge.mk a b ∉ t.graph.Edges →
      t.graph.Disconnect a b = (some Error.EdgeNotFound, t.graph)) ∧
    (Event.connected (Edge.mk a b) ∉ t.events →
      t.graph.Disconnect a b = (some Error.EdgeNotFound, t.graph)) ∧
    (Edge.mk a b ∈ t.graph.Edges →
      (t.graph.Disconnect a b).1 = none ∧
      Edge.mk a b ∉ (t.graph.Disconnect a b).2.Edges ∧
      (∀ e ∈ t.graph.Edges, e ≠ Edge.mk a b → e ∈ (t.graph.Disconnect a b).2.Edges) ∧
      (∀ e ∈ (t.graph.Disconnect a b).2.Edges, e ∈ t.graph.Edges) ∧
      (t.graph.Disconnect a b).2.Nodes = t.graph.Nodes ∧
      (t.graph.Disconnect a b).2.Disconnect a b =
        (some Error.EdgeNotFound, (t.graph.Disconnect a b).2)) := by
  have hs := System.inv_run actions
  have hgood := hs.good i t hi
  refine ⟨Graph.Disconnect_missing t.graph a b ha hb, ?_, ?_⟩
  · intro hnever
    refine Graph.Disconnect_missing t.graph a b ha hb ?_
    intro hmem
    have hmem2 : Edge.mk a b ∈ t.graph.edges := hmem
    rw [hgood.edges] at hmem2
    exact hnever (mem_connected_of_mem_survivors _ _ hmem2)
  · intro he
    have heq := Graph.Disconnect_present t.graph a b ha hb he
    have hgone : Edge.mk a b ∉ (t.graph.Disconnect a b).2.Edges := by
      rw [heq]
      intro hmem
      have := (List.mem_filter.mp hmem).2
      simp at this
    refine ⟨by rw [heq], hgone, ?_, ?_, by rw [heq]; rfl, ?_⟩
    · intro e hmem hne
      rw [heq]
      exact List.mem_filter.mpr ⟨hmem, by simpa using hne⟩
    · intro e hmem
      rw [heq] at hmem
      exact (List.mem_filter.mp hmem).1
    · refine Graph.Disconnect_missing _ a b ?_ ?_ hgone
      · rw [heq]
        exact ha
      · rw [heq]
        exact hb

/-- Witness of C17: the case `connection_removed` of
`TestDisconnectEdgeErrors`.  Before its `Disconnect` the edge exists and the
call succeeds; after it the same call returns `EdgeNotFound`. -/
theorem disconnect_edge_not_found_witness :
    (System.run testConnectionRemovedSetup.dropLast).graphs[0]? = some testConnectedState ∧
    testConnectedState.graph.Contains (some ⟨0, 1⟩) = true ∧
    testConnectedState.graph.Contains (some ⟨0, 2⟩) = true ∧
    (testConnectedState.graph.Disconnect (some ⟨0, 1⟩) (some ⟨0, 2⟩)).1 = none ∧
    (testConnectionRemovedState.graph.Disconnect
        (some ⟨0, 1⟩) (some ⟨0, 2⟩)).1 = some Error.EdgeNotFound ∧
    ((Edge.mk (some ⟨0, 1⟩) (some ⟨0, 2⟩) ∉ testConnectedState.graph.Edges →
      testConnectedState.graph.Disconnect (some ⟨0, 1⟩) (some ⟨0, 2⟩) =
        (some Error.EdgeNotFound, testConnectedState.graph)) ∧
    (Event.connected (Edge.mk (some ⟨0, 1⟩) (some ⟨0, 2⟩)) ∉ testConnectedState.events →
      testConnectedState.graph.Disconnect (some ⟨0, 1⟩) (some ⟨0, 2⟩) =
        (some Error.EdgeNotFound, testConnectedState.graph)) ∧
    (Edge.mk (some ⟨0, 1⟩) (some ⟨0, 2⟩) ∈ testConnectedState.graph.Edges →
      (testConnectedState.graph.Disconnect (some ⟨0, 1⟩) (some ⟨0, 2⟩)).1 = none ∧
      Edge.mk (some ⟨0, 1⟩) (some ⟨0, 2⟩) ∉
        (testConnectedState.graph.Disconnect (some ⟨0, 1⟩) (some ⟨0, 2⟩)).2.Edges ∧
      (∀ e ∈ testConnectedState.graph.Edges, e ≠ Edge.mk (some ⟨0, 1⟩) (some ⟨0, 2⟩) →
          e ∈ (testConnectedState.graph.Disconnect (some ⟨0, 1⟩) (some ⟨0, 2⟩)).2.Edges) ∧
      (∀ e ∈ (testConnectedState.graph.Disconnect (some ⟨0, 1⟩) (some ⟨0, 2⟩)).2.Edges,
          e ∈ testConnectedState.graph.Edges) ∧
      (testConnectedState.graph.Disconnect (some ⟨0, 1⟩) (some ⟨0, 2⟩)).2.Nodes = testConnectedState.graph.Nodes ∧
      (testConnectedState.graph.Disconnect (some ⟨0, 1⟩) (some ⟨0, 2⟩)).2.Disconnect
          (some ⟨0, 1⟩) (some ⟨0, 2⟩) =
        (some Error.EdgeNotFound,
          (testConnectedState.graph.Disconnect (some ⟨0, 1⟩) (some ⟨0, 2⟩)).2))) :=
  ⟨by decide, by decide, by decide, by decide, by decide,
    disconnect_edge_not_found testConnectionRemovedSetup.dropLast 0 _ (by decide)
      (some ⟨0, 1⟩) (some ⟨0, 2⟩) (by decide) (by decide)⟩

/-- Under the `Remove` of the prose the same holds on every graph whose
successful removals each took a node that was then no endpoint of an edge. -/
theorem edges_of_removalsUnconnected (actions : List Action) (i : Nat) (t : Tracked)
    (hi : (System.run actions).graphs[i]? = some t)
    (hrem : removalsUnconnected t.events = true) :
    t.graph.Edges = connectedNotDisconnected t.events :=
  ((System.inv_run actions).good i t hi).edges.trans
    (survivors_of_removalsUnconnected t.events hrem)

/-- The edges of every reachable graph are the survivors of its record: the
pairs connected and since then neither disconnected nor dropped by the
`Remove` of the specification. -/
theorem edges_are_survivors (actions : List Action) (i : Nat) (t : Tracked)
    (hi : (System.run actions).graphs[i]? = some t) :
    t.graph.Edges = survivors t.events :=
  ((System.inv_run actions).good i t hi).edges

/-- C19: in every state reachable from `New()` by `NewNode`, `Remove`,
`Connect` and `Disconnect` calls, successful or failing, every edge of
`Edges()` has an origin and a destination that the graph contains, and no
ordered pair occurs twice in `Edges()`. -/
theorem edges_reference_live_nodes (actions : List Action) (i : Nat) (t : Tracked)
    (hi : (System.run actions).graphs[i]? = some t) :
    (∀ e ∈ t.graph.Edges,
      t.graph.Contains e.Origin = true ∧ t.graph.Contains e.Destination = true) ∧
    t.graph.Edges.Nodup ∧
    (∀ e : Edge, t.graph.Edges.count e ≤ 1) := by
  have hcons := ((System.inv_run actions).good i t hi).consistent
  exact ⟨hcons.1, hcons.2, fun e => List.nodup_iff_count_le_one.mp hcons.2 e⟩

/-- Witness of C19: the state of `TestRemoveNodes` after the removal of `ne1`,
whose edge went with it. -/
theorem edges_reference_live_nodes_witness :
    (System.run (testRemoveNodesSetup ++
      [Action.call 0 (Op.Remove (some ⟨0, 3⟩))])).graphs[0]? = some testRemovedEndpointState ∧
    ((∀ e ∈ testRemovedEndpointState.graph.Edges,
      testRemovedEndpointState.graph.Contains e.Origin = true ∧
      testRemovedEndpointState.graph.Contains e.Destination = true) ∧
    testRemovedEndpointState.graph.Edges.Nodup ∧
    (∀ e : Edge, testRemovedEndpointState.graph.Edges.count e ≤ 1)) :=
  ⟨by decide,
    edges_reference_live_nodes
      (testRemoveNodesSetup ++ [Action.call 0 (Op.Remove (some ⟨0, 3⟩))]) 0 _ (by decide)⟩

/-- C20: the invariant of the graph state.  It holds after `New()`; `NewNode`
preserves it and keeps the token, as long as the new length is an `int`;
`Nodes` preserves it and keeps the token; and every graph of a reachable
state whose length is an `int` satisfies it: the counter is the number of
stored nodes, and the `i`-th stored node has the token of the graph and the
id `i + 1`. -/
theorem graph_invariant (extra : Nat → Nat) :
    (∀ h : Heap, (New h).1.Invariant (New h).2) ∧
    (∀ (g : graph) (h : Heap), g.Invariant h → g.nodes.len < maxInt →
      (g.NewNode extra h).2.1.Invariant (g.NewNode extra h).2.2 ∧
      (g.NewNode extra h).2.1.id = g.id) ∧
    (∀ (g : graph) (h : Heap), g.Invariant h →
      (g.Nodes h).2.1.Invariant (g.Nodes h).2.2 ∧ (g.Nodes h).2.1.id = g.id) ∧
    (∀ (calls : List Call) (i : Nat) (g : graph),
      (World.run extra calls).graphs[i]? = some g → g.nodes.len ≤ maxInt →
        g.Invariant (World.run extra calls).heap) :=
  ⟨New_invariant,
    fun g h hg hlen => ⟨NewNode_invariant extra g h hg hlen, rfl⟩,
    fun _ _ hg => ⟨hg, rfl⟩,
    World.reachable_invariant extra⟩

/-- Witness of C20: the invariant of a new graph, carried over its first
`NewNode`. -/
theorem graph_invariant_witness :
    (New []).1.Invariant (New []).2 ∧
    (New []).1.nodes.len < maxInt ∧
    ((New []).1.NewNode doubling (New []).2).2.1.Invariant
      ((New []).1.NewNode doubling (New []).2).2.2 ∧
    ((New []).1.NewNode doubling (New []).2).2.1.id = (New []).1.id :=
  ⟨(graph_invariant doubling).1 [], by decide,
    (graph_invariant doubling).2.1 _ _ ((graph_invariant doubling).1 []) (by decide)⟩

end Digraph
